import Mathlib

/-!
Verification of the wine-record deduplication and fuzzy-merging engine of
`src/pdf_processor.py` (functions `normalize_wine_name`, `contains_japanese`,
`extract_wine_identity`, `calculate_identity_similarity`,
`check_transliteration_similarity`, `check_substring_similarity`,
`check_romanization_similarity`, `calculate_wine_similarity`,
`get_japanese_content_score`, `merge_wine_info`, `deduplicate_wines`).

Modelling conventions:
* Python strings are `List Char` (Unicode scalar values, as in CPython).
* Python floats are modelled as exact rationals `ℚ`.  Every constant used by
  the engine (0.3, 0.4, 0.7, 0.95, 1.2, ...) and every ratio of small word
  counts is handled identically by IEEE doubles and by `ℚ` at the comparison
  thresholds that occur here, so the branch structure is unaffected.
* Rational arithmetic is routed through `mkRat`-based wrappers (`qadd`,
  `qmul`, `qdiv`) that are definitionally computable by the kernel; they are
  proved equal to the `ℚ` field operations below, and the bound/symmetry
  theorems use the field form.
* The regular-expression rewrites of the source are implemented as
  specialised total functions with the exact leftmost / greedy / alternation
  semantics of `re.sub` and `re.findall` for the concrete patterns involved;
  each definition notes the pattern it implements.
* `unicodedata.normalize('NFKD', ·)` plus combining-mark removal is modelled
  by a character table covering the Latin accent range actually relevant to
  wine names; characters outside the table are untouched.  `html.unescape`
  is modelled with the core named entities; no input in this development
  contains an ampersand.
-/

/-! ## Kernel-computable rational arithmetic -/

/-- Addition on `ℚ` via `mkRat`, definitionally computable by the kernel
(`Rat.add` is `@[irreducible]`). -/
def qadd (a b : ℚ) : ℚ := mkRat (a.num * b.den + b.num * a.den) (a.den * b.den)

/-- Multiplication on `ℚ` via `mkRat`, definitionally computable by the kernel. -/
def qmul (a b : ℚ) : ℚ := mkRat (a.num * b.num) (a.den * b.den)

/-- Inverse on `ℚ` via `mkRat`, definitionally computable by the kernel. -/
def qinv (b : ℚ) : ℚ := mkRat (if b.num < 0 then -(b.den : Int) else (b.den : Int)) b.num.natAbs

/-- Division on `ℚ` via `mkRat`, definitionally computable by the kernel. -/
def qdiv (a b : ℚ) : ℚ := qmul a (qinv b)

theorem qadd_eq (a b : ℚ) : qadd a b = a + b := by
  unfold qadd
  rw [Rat.mkRat_eq_div]
  conv_rhs => rw [← Rat.num_div_den a, ← Rat.num_div_den b]
  rw [div_add_div _ _ (by positivity : ((a.den : ℚ)) ≠ 0) (by positivity : ((b.den : ℚ)) ≠ 0)]
  push_cast
  ring_nf

theorem qmul_eq (a b : ℚ) : qmul a b = a * b := by
  unfold qmul
  rw [Rat.mkRat_eq_div]
  conv_rhs => rw [← Rat.num_div_den a, ← Rat.num_div_den b]
  rw [div_mul_div_comm]
  push_cast
  ring_nf

theorem qinv_eq (b : ℚ) : qinv b = b⁻¹ := by
  unfold qinv
  rw [Rat.mkRat_eq_div, Rat.inv_def', Rat.divInt_eq_div]
  rcases lt_trichotomy b.num 0 with h | h | h
  · rw [if_pos h]
    push_cast [Int.cast_natAbs]
    rw [abs_of_neg (by exact_mod_cast h : ((b.num : ℚ)) < 0)]
    rw [neg_div_neg_eq]
  · rw [if_neg (by omega), h]
    simp
  · rw [if_neg (by omega)]
    push_cast [Int.cast_natAbs]
    rw [abs_of_pos (by exact_mod_cast h : (0:ℚ) < (b.num : ℚ))]

theorem qdiv_eq (a b : ℚ) : qdiv a b = a / b := by
  rw [qdiv, qmul_eq, qinv_eq, div_eq_mul_inv]

theorem mkRat_eq_divQ (n : Int) (d : Nat) : mkRat n d = (n : ℚ) / d := Rat.mkRat_eq_div n d

/-! ## Strings as character lists -/

/-- Python strings are sequences of Unicode scalar values. -/
abbrev Str := List Char

/-- Character list of a Lean string literal. -/
def toL (s : String) : Str := s.data

/-- Whitespace characters, per Python `str.isspace` / regex `\s` (ASCII
whitespace, NEL, NBSP, the Unicode space separators, line/paragraph
separators and the information separators). -/
def isSpaceCh (c : Char) : Bool :=
  let n := c.toNat
  n = 0x20 || n = 0x09 || n = 0x0A || n = 0x0D || n = 0x0B || n = 0x0C ||
  (0x1C ≤ n && n ≤ 0x1F) || n = 0x85 || n = 0xA0 || n = 0x1680 ||
  (0x2000 ≤ n && n ≤ 0x200A) || n = 0x2028 || n = 0x2029 || n = 0x202F ||
  n = 0x205F || n = 0x3000

/-- ASCII digit, per regex `[0-9]`. -/
def isAsciiDigit (c : Char) : Bool := '0' ≤ c && c ≤ '9'

/-- Decimal digit, per Python regex `\d` (ASCII or full-width forms; other
scripts' digits do not occur in this domain). -/
def isDigitPy (c : Char) : Bool :=
  isAsciiDigit c || (0xFF10 ≤ c.toNat && c.toNat ≤ 0xFF19)

/-- Word character, per Python regex `\w` restricted to the character ranges
that can reach the non-Japanese branch of the normalizer: ASCII
alphanumerics and underscore, Latin-1/Latin-Extended letters, Greek and
Cyrillic letters, full-width digits. -/
def isWordCh (c : Char) : Bool :=
  let n := c.toNat
  (0x30 ≤ n && n ≤ 0x39) || (0x41 ≤ n && n ≤ 0x5A) || (0x61 ≤ n && n ≤ 0x7A) ||
  n = 0x5F || n = 0xAA || n = 0xB5 || n = 0xBA ||
  (0xC0 ≤ n && n ≤ 0x2AF && n ≠ 0xD7 && n ≠ 0xF7) ||
  (0x370 ≤ n && n ≤ 0x3FF) || (0x400 ≤ n && n ≤ 0x4FF) ||
  (0xFF10 ≤ n && n ≤ 0xFF19)

/-- Lower-casing of a character, per Python `str.lower` restricted to ASCII
and Latin-1 (the case-bearing characters reachable after accent folding). -/
def toLowerCh (c : Char) : Char :=
  let n := c.toNat
  if 0x41 ≤ n && n ≤ 0x5A then Char.ofNat (n + 0x20)
  else if 0xC0 ≤ n && n ≤ 0xDE && n ≠ 0xD7 then Char.ofNat (n + 0x20)
  else c

/-- Lower-casing of a string (`str.lower`). -/
def lowerL (s : Str) : Str := s.map toLowerCh

/-- NFKD decomposition followed by removal of combining marks
(`unicodedata.normalize('NFKD', s)` then dropping `unicodedata.combining`),
as a character table over the Latin accent block relevant to wine names;
characters outside the table are unchanged. -/
def nfkdFoldCh (c : Char) : Char :=
  let n := c.toNat
  if n < 0xC0 then c
  else if n = 0xC0 || n = 0xC1 || n = 0xC2 || n = 0xC3 || n = 0xC4 || n = 0xC5 then 'A'
  else if n = 0xC7 then 'C'
  else if 0xC8 ≤ n && n ≤ 0xCB then 'E'
  else if 0xCC ≤ n && n ≤ 0xCF then 'I'
  else if n = 0xD1 then 'N'
  else if (0xD2 ≤ n && n ≤ 0xD6) then 'O'
  else if 0xD9 ≤ n && n ≤ 0xDC then 'U'
  else if n = 0xDD then 'Y'
  else if n = 0xE0 || n = 0xE1 || n = 0xE2 || n = 0xE3 || n = 0xE4 || n = 0xE5 then 'a'
  else if n = 0xE7 then 'c'
  else if 0xE8 ≤ n && n ≤ 0xEB then 'e'
  else if 0xEC ≤ n && n ≤ 0xEF then 'i'
  else if n = 0xF1 then 'n'
  else if (0xF2 ≤ n && n ≤ 0xF6) then 'o'
  else if 0xF9 ≤ n && n ≤ 0xFC then 'u'
  else if n = 0xFD || n = 0xFF then 'y'
  else if n = 0x101 then 'a'
  else if n = 0x10D then 'c'
  else if n = 0x113 then 'e'
  else if n = 0x12B then 'i'
  else if n = 0x14D then 'o'
  else if n = 0x161 then 's'
  else if n = 0x16B then 'u'
  else if n = 0x17E then 'z'
  else c

/-- NFKD + combining-mark removal over a string. -/
def foldNFKD (s : Str) : Str := s.map nfkdFoldCh

/-- Leading-whitespace removal (`str.lstrip`). -/
def stripLead (s : Str) : Str := s.dropWhile isSpaceCh

/-- Trailing-whitespace removal (`str.rstrip`). -/
def stripTrail (s : Str) : Str := (s.reverse.dropWhile isSpaceCh).reverse

/-- Whitespace strip on both ends (`str.strip`). -/
def stripBoth (s : Str) : Str := stripTrail (stripLead s)

/-- Helper for `collapseWs`: the flag records whether the previous character
was whitespace (in which case further whitespace is absorbed). -/
def collapseWsGo : Bool → Str → Str
  | _, [] => []
  | prevWs, c :: r =>
    if isSpaceCh c then
      if prevWs then collapseWsGo true r else ' ' :: collapseWsGo true r
    else c :: collapseWsGo false r

/-- Replacement of every whitespace run by a single space
(`re.sub(r'\s+', ' ', s)`). -/
def collapseWs (s : Str) : Str := collapseWsGo false s

theorem length_dropWhile_le (p : α → Bool) (l : List α) :
    (l.dropWhile p).length ≤ l.length := by
  induction l with
  | nil => simp [List.dropWhile]
  | cons a r ih =>
    simp only [List.dropWhile]
    split
    · exact Nat.le_trans ih (Nat.le_succ _)
    · exact Nat.le_refl _

theorem length_drop_le (n : Nat) (l : List α) : (l.drop n).length ≤ l.length := by
  simp

/-- Helper for `splitWs`, structurally recursive on a fuel argument so that
the kernel can evaluate it; the fuel (initially the string length, which
strictly exceeds the consumption of every step) never runs out. -/
def splitWsGo : Nat → Str → List Str
  | _, [] => []
  | 0, _ :: _ => []
  | fuel + 1, c :: r =>
    if isSpaceCh c then splitWsGo fuel r
    else (c :: r.takeWhile (fun x => !isSpaceCh x)) :: splitWsGo fuel (r.dropWhile (fun x => !isSpaceCh x))

/-- Python words split (`str.split()` with no argument): split on whitespace
runs, no empty words. -/
def splitWs (s : Str) : List Str := splitWsGo s.length s

/-- Test that `needle` is a prefix of `hay`. -/
def startsWithL : Str → Str → Bool
  | [], _ => true
  | _ :: _, [] => false
  | a :: as, b :: bs => a == b && startsWithL as bs

/-- Contiguous-substring test, per the Python `in` operator on strings. -/
def isSubstrL (needle : Str) : Str → Bool
  | [] => startsWithL needle []
  | c :: r => startsWithL needle (c :: r) || isSubstrL needle r

/-! ## Japanese-script detection (`contains_japanese`) -/

/-- Core named entities of Python `html.unescape`; numeric references are
omitted (no input in this development contains an ampersand). -/
def entityTable : List (Str × Char) :=
  [(toL "amp;", '&'), (toL "lt;", '<'), (toL "gt;", '>'),
   (toL "quot;", '"'), (toL "apos;", '\''), (toL "nbsp;", Char.ofNat 0xA0)]

/-- Helper for `htmlUnescape`, structurally recursive on fuel. -/
def htmlUnescapeGo : Nat → Str → Str
  | _, [] => []
  | 0, l => l
  | fuel + 1, c :: r =>
    if c = '&' then
      match entityTable.find? (fun e => startsWithL e.1 r) with
      | some e => e.2 :: htmlUnescapeGo fuel (r.drop e.1.length)
      | none => '&' :: htmlUnescapeGo fuel r
    else c :: htmlUnescapeGo fuel r

/-- HTML entity unescaping (`html.unescape`), modelled over `entityTable`. -/
def htmlUnescape (s : Str) : Str := htmlUnescapeGo s.length s

/-- Membership of a code point in the Japanese Unicode ranges listed in
`contains_japanese` (hiragana, katakana, kanji, CJK extension A, half-width
katakana, CJK symbols/punctuation, full-width ASCII variants). -/
def inJapaneseRanges (c : Char) : Bool :=
  let n := c.toNat
  (0x3040 ≤ n && n ≤ 0x309F) || (0x30A0 ≤ n && n ≤ 0x30FF) ||
  (0x4E00 ≤ n && n ≤ 0x9FAF) || (0x3400 ≤ n && n ≤ 0x4DBF) ||
  (0xFF66 ≤ n && n ≤ 0xFF9F) || (0x3000 ≤ n && n ≤ 0x303F) ||
  (0xFF01 ≤ n && n ≤ 0xFF60)

/-- Port of `contains_japanese`: HTML-unescape, then report whether any
non-whitespace character lies in a Japanese range. -/
def contains_japanese (text : Str) : Bool :=
  (htmlUnescape text).any (fun c => !isSpaceCh c && inJapaneseRanges c)

/-! ## Regex rewriters used by `normalize_wine_name` -/

/-- Helper for `removeTags`: after a `<` and at least one non-`>` character,
scan for the closing `>` and return the remainder. -/
def scanTagClose : Str → Option Str
  | [] => none
  | c :: r => if c = '>' then some r else scanTagClose r

/-- Helper for `removeTags`: given the characters after a `<`, return the
remainder after a full `<[^>]+>` match, if any. -/
def matchTag : Str → Option Str
  | [] => none
  | c :: r => if c = '>' then none else scanTagClose r

theorem scanTagClose_length (s : Str) (r : Str) (h : scanTagClose s = some r) :
    r.length < s.length := by
  induction s with
  | nil => simp [scanTagClose] at h
  | cons c cs ih =>
    rw [scanTagClose] at h
    split at h
    · cases h
      simp
    · exact Nat.lt_trans (ih h) (by simp)

theorem matchTag_length (s : Str) (r : Str) (h : matchTag s = some r) :
    r.length < s.length + 1 := by
  cases s with
  | nil => simp [matchTag] at h
  | cons c cs =>
    rw [matchTag] at h
    split at h
    · cases h
    · have := scanTagClose_length cs r h
      simp
      omega

/-- Helper for `removeTags`, structurally recursive on fuel. -/
def removeTagsGo : Nat → Str → Str
  | _, [] => []
  | 0, l => l
  | fuel + 1, c :: r =>
    if c = '<' then
      match matchTag r with
      | some rest => removeTagsGo fuel rest
      | none => '<' :: removeTagsGo fuel r
    else c :: removeTagsGo fuel r

/-- Removal of HTML-like tags (`re.sub(r'<[^>]+>', '', s)`), with the
leftmost non-overlapping semantics of `re.sub`. -/
def removeTags (s : Str) : Str := removeTagsGo s.length s

/-- Length of the maximal run of characters at the end of `s` satisfying `p`. -/
def trailRunLength (p : Char → Bool) (s : Str) : Nat := (s.reverse.takeWhile p).length

/-- Stripping of an anchored suffix with optional leading whitespace
(`re.sub(r'\s*TOK$', '', s)` for a literal token `TOK`): if `s` ends with the
token, the token and the whitespace run immediately before it are removed. -/
def stripTokStar (tok : Str) (s : Str) : Str :=
  if startsWithL tok.reverse s.reverse then stripTrail (s.take (s.length - tok.length))
  else s

/-- Port of `re.sub(r'\s*[0-9]{4}$', '', s)` (Japanese-path vintage-year
strip): with `d` trailing ASCII digits, a match removes the last four digits,
plus the preceding whitespace run exactly when `d = 4`. -/
def stripTrailYearJP (s : Str) : Str :=
  let d := trailRunLength isAsciiDigit s
  if d < 4 then s
  else if d = 4 then stripTrail (s.take (s.length - 4))
  else s.take (s.length - 4)

/-- Port of `re.sub(r'\s+\d{2,4}$', '', s)` (Latin-path year strip): a match
requires a trailing digit run of length 2 to 4 preceded by at least one
whitespace character; the digits and the whole whitespace run are removed. -/
def stripTrailYearLatin (s : Str) : Str :=
  let d := trailRunLength isDigitPy s
  if 2 ≤ d && d ≤ 4 then
    let rest := s.take (s.length - d)
    if trailRunLength isSpaceCh rest ≥ 1 then stripTrail rest
    else s
  else s

/-- Port of `re.sub(r'\s+(a1|a2|...)$', '', s)` for a literal alternation:
scanning left to right, at the first whitespace character whose following
text (after the whitespace run) is exactly one of the alternatives, delete
from that character to the end. -/
def stripAltSuffix (alts : List Str) : Str → Str
  | [] => []
  | c :: r =>
    if isSpaceCh c && alts.contains (r.dropWhile isSpaceCh) then []
    else c :: stripAltSuffix alts r

/-- Port of `re.sub(r'^(a1|a2|...)\s+', ' ', s)` (leading-article rewrite):
if some alternative (tried in pattern order) is a prefix of `s` and is
followed by whitespace, replace the alternative and the whitespace run by a
single space. -/
def subArticleLead (alts : List Str) (s : Str) : Str :=
  match alts.find? (fun a =>
      startsWithL a s && isSpaceCh ((s.drop a.length).headD 'x')) with
  | some a => ' ' :: (s.drop a.length).dropWhile isSpaceCh
  | none => s

/-- Port of the global `re.sub(r'\s+(a1|a2|...)\s+', ' ', s)` (embedded
articles): scanning left to right, a match consumes a whitespace run, an
alternative (tried in pattern order) and a following whitespace run, and is
replaced by a single space; scanning resumes after the match. -/
def subArticleMidGo (alts : List Str) : Nat → Str → Str
  | _, [] => []
  | 0, l => l
  | fuel + 1, c :: r =>
    if isSpaceCh c then
      let rem := r.dropWhile isSpaceCh
      match alts.find? (fun a =>
          startsWithL a rem && isSpaceCh ((rem.drop a.length).headD 'x')) with
      | some a => ' ' :: subArticleMidGo alts fuel ((rem.drop a.length).dropWhile isSpaceCh)
      | none => c :: subArticleMidGo alts fuel r
    else c :: subArticleMidGo alts fuel r

/-- Entry point of `subArticleMidGo` with sufficient fuel. -/
def subArticleMid (alts : List Str) (s : Str) : Str := subArticleMidGo alts s.length s

/-- Port of the global `re.sub(r'\s+(aoc|aop|doc|docg|igp|vdp|appellation)\s*', ' ', s)`:
like `subArticleMid` but with an optional (greedy) trailing whitespace run. -/
def subAppellationGo (alts : List Str) : Nat → Str → Str
  | _, [] => []
  | 0, l => l
  | fuel + 1, c :: r =>
    if isSpaceCh c then
      let rem := r.dropWhile isSpaceCh
      match alts.find? (fun a => startsWithL a rem) with
      | some a => ' ' :: subAppellationGo alts fuel ((rem.drop a.length).dropWhile isSpaceCh)
      | none => c :: subAppellationGo alts fuel r
    else c :: subAppellationGo alts fuel r

/-- Entry point of `subAppellationGo` with sufficient fuel. -/
def subAppellation (alts : List Str) (s : Str) : Str := subAppellationGo alts s.length s

/-- Port of `re.findall('(a1|a2|...)', s)` for a literal alternation: all
non-overlapping matches, leftmost first, alternatives tried in pattern
order.  (For an empty alternative the step size is clamped to 1; the source
patterns contain no empty alternative.) -/
def findAllAltsGo (alts : List Str) : Nat → Str → List Str
  | _, [] => []
  | 0, _ :: _ => []
  | fuel + 1, c :: r =>
    match alts.find? (fun a => startsWithL a (c :: r)) with
    | some a => a :: findAllAltsGo alts fuel (r.drop (a.length - 1))
    | none => findAllAltsGo alts fuel r

/-- Entry point of `findAllAltsGo` with sufficient fuel. -/
def findAllAlts (alts : List Str) (s : Str) : List Str := findAllAltsGo alts s.length s

/-! ## `normalize_wine_name` -/

/-- Alternatives of the first Latin wine-suffix pattern
`\s+(nv|non vintage|brut|sec|demi-sec|doux|rouge|blanc|rose|vin|wine)$`. -/
def wineSuffixAlts1 : List Str :=
  [toL "nv", toL "non vintage", toL "brut", toL "sec", toL "demi-sec",
   toL "doux", toL "rouge", toL "blanc", toL "rose", toL "vin", toL "wine"]

/-- Alternatives of `\s+(zero|dosage zero|extra brut|extra dry)$`. -/
def wineSuffixAlts2 : List Str :=
  [toL "zero", toL "dosage zero", toL "extra brut", toL "extra dry"]

/-- Alternatives of `\s+(reserve|reserva|gran reserva|riserva)$`. -/
def wineSuffixAlts3 : List Str :=
  [toL "reserve", toL "reserva", toL "gran reserva", toL "riserva"]

/-- Alternatives of `\s+(cuvee|special|selection|premium|classic)$`. -/
def wineSuffixAlts4 : List Str :=
  [toL "cuvee", toL "special", toL "selection", toL "premium", toL "classic"]

/-- Alternatives of the leading-article pattern
`^(le|la|les|de|du|des|the|a|an|von|vom|zur|della|del|di|da)\s+`. -/
def articleLeadAlts : List Str :=
  [toL "le", toL "la", toL "les", toL "de", toL "du", toL "des", toL "the",
   toL "a", toL "an", toL "von", toL "vom", toL "zur", toL "della", toL "del",
   toL "di", toL "da"]

/-- Alternatives of the embedded-article pattern
`\s+(de|du|des|von|vom|zur|della|del|di|da)\s+`. -/
def articleMidAlts : List Str :=
  [toL "de", toL "du", toL "des", toL "von", toL "vom", toL "zur",
   toL "della", toL "del", toL "di", toL "da"]

/-- Alternatives of `\s+(aoc|aop|doc|docg|igp|vdp|appellation)\s*`. -/
def appellationAlts : List Str :=
  [toL "aoc", toL "aop", toL "doc", toL "docg", toL "igp", toL "vdp",
   toL "appellation"]

/-- Punctuation removed on the Japanese branch:
`re.sub(r'[()（）\[\]【】""'""]', '', s)` (ASCII and full-width parentheses,
square and lenticular brackets, double quote, apostrophe). -/
def jpPunctList : List Char :=
  ['(', ')', Char.ofNat 0xFF08, Char.ofNat 0xFF09, '[', ']',
   Char.ofNat 0x3010, Char.ofNat 0x3011, '"', '\'']

/-- Port of `normalize_wine_name` from `pdf_processor.py`. -/
def normalize_wine_name (name : Str) : Str :=
  if name = [] then []
  else
    let n0 := removeTags name
    let n1 :=
      if contains_japanese name then
        let a := collapseWs (stripBoth n0)
        let b := stripTokStar (toL "NV") a
        let c := stripTrailYearJP b
        let d := stripTokStar (toL "赤") c
        let e := stripTokStar (toL "白") d
        stripTokStar (toL "ロゼ") e
      else
        let a := lowerL (stripBoth (foldNFKD n0))
        let b := collapseWs a
        let c := stripAltSuffix wineSuffixAlts1 b
        let d := stripAltSuffix wineSuffixAlts2 c
        let e := stripAltSuffix wineSuffixAlts3 d
        let f := stripAltSuffix wineSuffixAlts4 e
        let g := stripTrailYearLatin f
        let h := subArticleLead articleLeadAlts g
        let i := subArticleMid articleMidAlts h
        subAppellation appellationAlts i
    let n2 := collapseWs (stripBoth n1)
    if contains_japanese n2 then n2.filter (fun c => !jpPunctList.contains c)
    else n2.filter (fun c => isWordCh c || isSpaceCh c || c = '-' || c = '.')

/-! ## Data model -/

/-- Modelled from the spec: the `WineInfo` schema version imported by
`pdf_processor.py` (spec §3, "WineRecord") is not part of the repository
snapshot — `src/src/type_schema.py` holds a different `WineInfo` (fields
`cepage`, `source`, `page_number`) that does not declare the
`region` / `grape_variety` / `alcohol_content` / `source_file` fields that
`pdf_processor.py` reads and writes.  Per spec §3 the record has a required
`name` and optional `producer`, `country`, `region`, `grape_variety`,
`vintage`, `price`, `alcohol_content`, `description`, `source_file`.
Optional fields are `Option Str` (`None` ↦ `none`); Python truthiness of a
field is `truthyO`. -/
structure WineRecord where
  name : Str
  producer : Option Str := none
  country : Option Str := none
  region : Option Str := none
  grape_variety : Option Str := none
  vintage : Option Str := none
  price : Option Str := none
  alcohol_content : Option Str := none
  description : Option Str := none
  source_file : Option Str := none
deriving DecidableEq

/-- Python truthiness of an optional string: `None` and the empty string are
falsy. -/
def truthyO : Option Str → Bool
  | none => false
  | some s => !s.isEmpty

/-- Value of an optional string (only meaningful under `truthyO`). -/
def optVal (o : Option Str) : Str := o.getD []

/-- Derived comparison view of one record, per `extract_wine_identity`. -/
structure WineIdentity where
  name_words : Finset Str
  producer_words : Finset Str
  wine_types : Finset Str
  regions : Finset Str
  grape_variety : Option Str
  original_name : Str
  normalized_name : Str

/-- Stop words excluded from name/producer keywords in
`extract_wine_identity`. -/
def stopWords : List Str :=
  [toL "de", toL "du", toL "des", toL "le", toL "la", toL "les", toL "the",
   toL "and", toL "et", toL "von", toL "vom", toL "della", toL "del",
   toL "di", toL "da", toL "wine", toL "vin", toL "vino", toL "domaine",
   toL "chateau", toL "estate", toL "winery", toL "cave", toL "maison"]

/-- The five `type_patterns` alternation lists of `extract_wine_identity`. -/
def typePatterns : List (List Str) :=
  [[toL "champagne", toL "cremant", toL "cava", toL "prosecco", toL "sparkling"],
   [toL "chardonnay", toL "sauvignon", toL "pinot", toL "merlot", toL "cabernet", toL "syrah", toL "shiraz"],
   [toL "rouge", toL "blanc", toL "rose", toL "red", toL "white", toL "pink"],
   [toL "brut", toL "sec", toL "demi", toL "doux", toL "dry", toL "sweet"],
   [toL "reserve", toL "premium", toL "grand", toL "cuvee"]]

/-- Keyword set of a normalized string: whitespace-split words of length
greater than 2 that are not stop words (`extract_wine_identity`). -/
def keywordSet (normalized : Str) : Finset Str :=
  ((splitWs normalized).filter
    (fun w => decide (w.length > 2) && !stopWords.contains w)).toFinset

/-- Port of `extract_wine_identity` from `pdf_processor.py`. -/
def extract_wine_identity (wine : WineRecord) : WineIdentity :=
  let name := wine.name
  let normalized_name := normalize_wine_name name
  let wine_types := typePatterns.foldl
    (fun acc p => acc ∪ (findAllAlts p (lowerL normalized_name)).toFinset) ∅
  let regions :=
    (if truthyO wine.region then {normalize_wine_name (optVal wine.region)} else (∅ : Finset Str)) ∪
    (if truthyO wine.country then {normalize_wine_name (optVal wine.country)} else ∅)
  let producer_words :=
    if truthyO wine.producer then keywordSet (normalize_wine_name (optVal wine.producer))
    else ∅
  { name_words := keywordSet normalized_name
    producer_words := producer_words
    wine_types := wine_types
    regions := regions
    grape_variety :=
      if truthyO wine.grape_variety then some (normalize_wine_name (optVal wine.grape_variety))
      else none
    original_name := name
    normalized_name := normalized_name }

/-! ## Identity similarity (`calculate_identity_similarity`) -/

/-- Labels of the evidence signals collected by
`calculate_identity_similarity` (the string tags of the source tuples). -/
inductive SigTag where
  | nameWords
  | nameBoost
  | producer
  | wineTypes
  | regions
  | grape
  | substring
deriving DecidableEq

/-- Signal list built by `calculate_identity_similarity`: each entry is
`(tag, score, weight)`, appended in source order and only when the
corresponding guard holds. -/
def identitySignals (i1 i2 : WineIdentity) : List (SigTag × ℚ × ℚ) :=
  let nameSig :=
    if i1.name_words ≠ ∅ ∧ i2.name_words ≠ ∅ then
      let inter := i1.name_words ∩ i2.name_words
      let union := i1.name_words ∪ i2.name_words
      let overlap := if union ≠ ∅ then mkRat inter.card union.card else mkRat 0 1
      (SigTag.nameWords, overlap, mkRat 2 5) ::
        (if mkRat inter.card 1 ≥
            qmul (mkRat (min i1.name_words.card i2.name_words.card) 1) (mkRat 7 10)
         then [(SigTag.nameBoost, mkRat 1 1, mkRat 1 5)] else [])
    else []
  let producerSig :=
    if i1.producer_words ≠ ∅ ∧ i2.producer_words ≠ ∅ then
      let inter := i1.producer_words ∩ i2.producer_words
      let union := i1.producer_words ∪ i2.producer_words
      let overlap := if union ≠ ∅ then mkRat inter.card union.card else mkRat 0 1
      [(SigTag.producer, overlap, mkRat 1 5)]
    else []
  let typeSig :=
    if i1.wine_types ≠ ∅ ∧ i2.wine_types ≠ ∅ ∧ i1.wine_types ∩ i2.wine_types ≠ ∅ then
      [(SigTag.wineTypes, mkRat 1 1, mkRat 3 20)]
    else []
  let regionSig :=
    if i1.regions ≠ ∅ ∧ i2.regions ≠ ∅ ∧ i1.regions ∩ i2.regions ≠ ∅ then
      [(SigTag.regions, mkRat 1 1, mkRat 1 10)]
    else []
  let grapeSig :=
    match i1.grape_variety, i2.grape_variety with
    | some g1, some g2 =>
      if g1 ≠ [] ∧ g2 ≠ [] ∧ g1 = g2 then [(SigTag.grape, mkRat 1 1, mkRat 1 20)] else []
    | _, _ => []
  let substrSig :=
    let n1 := i1.normalized_name
    let n2 := i2.normalized_name
    if n1 ≠ [] ∧ n2 ≠ [] ∧ n1.length > 5 ∧ n2.length > 5 then
      let p := if n1.length > n2.length then (n1, n2) else (n2, n1)
      if p.2.length > 0 then
        let wordsShorter := (splitWs p.2).toFinset
        let wordsLonger := (splitWs p.1).toFinset
        let containment := mkRat (wordsShorter ∩ wordsLonger).card wordsShorter.card
        if containment > mkRat 1 2 then [(SigTag.substring, containment, mkRat 1 10)]
        else []
      else []
    else []
  nameSig ++ producerSig ++ typeSig ++ regionSig ++ grapeSig ++ substrSig

/-- Port of `calculate_identity_similarity`: weighted average of the
collected signals; `0.0` when no signal fired. -/
def calculate_identity_similarity (i1 i2 : WineIdentity) : ℚ :=
  let sims := identitySignals i1 i2
  if sims = [] then mkRat 0 1
  else
    let total_weight := sims.foldl (fun acc s => qadd acc s.2.2) (mkRat 0 1)
    let weighted_sum := sims.foldl (fun acc s => qadd acc (qmul s.2.1 s.2.2)) (mkRat 0 1)
    if total_weight > mkRat 0 1 then qdiv weighted_sum total_weight else mkRat 0 1

/-! ## Transliteration / substring / romanization escalations -/

/-- The `transliteration_pairs` dictionary of
`check_transliteration_similarity`, in insertion order. -/
def transliterationPairs : List (Str × List Str) :=
  [(toL "ボニトゥラ", [toL "bonitura"]),
   (toL "ピノ・グリージョ", [toL "pinot grigio", toL "pinot gris"]),
   (toL "コート・ド・ガスコーニュ", [toL "cotes de gascogne", toL "côtes de gascogne"]),
   (toL "モンテ・アラヤ・テンプラニーリョ・ブランコ", [toL "monte araya tempranillo blanco"]),
   (toL "プティ・シャブリ", [toL "petit chablis"]),
   (toL "トスカーナ・ロサート", [toL "toscana rosato"]),
   (toL "アルマ・デ・チリ", [toL "alma de chile"]),
   (toL "ピノ・ノワール", [toL "pinot noir"]),
   (toL "カベルネ・ソーヴィニヨン", [toL "cabernet sauvignon"]),
   (toL "ラソン", [toL "razon"]),
   (toL "シャルドネ", [toL "chardonnay"]),
   (toL "メルロー", [toL "merlot"]),
   (toL "リースリング", [toL "riesling"]),
   (toL "ソーヴィニヨン・ブラン", [toL "sauvignon blanc"]),
   (toL "シラー", [toL "syrah", toL "shiraz"]),
   (toL "フランス", [toL "france", toL "french"]),
   (toL "イタリア", [toL "italy", toL "italian"]),
   (toL "スペイン", [toL "spain", toL "spanish"]),
   (toL "ドイツ", [toL "germany", toL "german"]),
   (toL "アメリカ", [toL "america", toL "american", toL "usa"]),
   (toL "カリフォルニア", [toL "california"]),
   (toL "ナパ・ヴァレー", [toL "napa valley"]),
   (toL "ソノマ", [toL "sonoma"]),
   (toL "ボルドー", [toL "bordeaux"]),
   (toL "ブルゴーニュ", [toL "burgundy", toL "bourgogne"]),
   (toL "ロワール", [toL "loire"]),
   (toL "シャンパーニュ", [toL "champagne"]),
   (toL "プロヴァンス", [toL "provence"]),
   (toL "ピエモンテ", [toL "piemonte", toL "piedmont"]),
   (toL "トスカーナ", [toL "toscana", toL "tuscany"]),
   (toL "リオハ", [toL "rioja"])]

/-- Pairing of the partial key-term arrays `wine_terms_jp` and
`wine_terms_en` by `zip` (the source lists have lengths 7 and 8, so `zip`
truncates and pairs the terms positionally, leaving `sauvignon` unused and
pairing リースリング with `shiraz` and ソーヴィニヨン with `riesling`,
exactly as the code does). -/
def wineTermPairs : List (Str × Str) :=
  (List.zip
    [toL "ピノ", toL "シャルドネ", toL "カベルネ", toL "メルロー", toL "シラー",
     toL "リースリング", toL "ソーヴィニヨン"]
    [toL "pinot", toL "chardonnay", toL "cabernet", toL "merlot", toL "syrah",
     toL "shiraz", toL "riesling", toL "sauvignon"])

/-- The `romanization_map` of `check_romanization_similarity`. -/
def romanizationMap : List (Str × Str) :=
  [(toL "ボニトゥラ", toL "bonitura"),
   (toL "ピノ", toL "pino"),
   (toL "シャルドネ", toL "sharudone"),
   (toL "カベルネ", toL "kaberune"),
   (toL "メルロー", toL "meruro"),
   (toL "リースリング", toL "riisuringu")]

/-- Port of `check_romanization_similarity`. -/
def check_romanization_similarity (name1 name2 : Str) : ℚ :=
  let jp_name := if contains_japanese name1 then name1 else name2
  let en_name := if contains_japanese name1 then name2 else name1
  let jp_norm := normalize_wine_name jp_name
  let en_norm := normalize_wine_name en_name
  if romanizationMap.any (fun p => isSubstrL p.1 jp_norm && isSubstrL p.2 en_norm) then
    mkRat 9 10
  else mkRat 0 1

/-- One entry of the transliteration table fires when the normalized
Japanese key and one of its Latin variants occur as substrings of the two
normalized names, in either orientation (the four `if` cases of the source
loop, which are pairwise-redundant and all return 0.95). -/
def translitEntryHit (norm1 norm2 : Str) (e : Str × List Str) : Bool :=
  let jp_norm := normalize_wine_name e.1
  e.2.any (fun en =>
    (isSubstrL jp_norm norm1 && isSubstrL en norm2) ||
    (isSubstrL en norm1 && isSubstrL jp_norm norm2) ||
    (isSubstrL jp_norm norm2 && isSubstrL en norm1) ||
    (isSubstrL en norm2 && isSubstrL jp_norm norm1))

/-- Port of `check_transliteration_similarity`. -/
def check_transliteration_similarity (name1 name2 : Str) : ℚ :=
  if name1 = [] ∨ name2 = [] then mkRat 0 1
  else
    let norm1 := normalize_wine_name name1
    let norm2 := normalize_wine_name name2
    if transliterationPairs.any (translitEntryHit norm1 norm2) then mkRat 19 20
    else if wineTermPairs.any (fun p =>
        (isSubstrL p.1 name1 && isSubstrL p.2 norm2) ||
        (isSubstrL p.1 name2 && isSubstrL p.2 norm1)) then mkRat 4 5
    else if contains_japanese name1 ≠ contains_japanese name2 then
      let r := check_romanization_similarity name1 name2
      if r > mkRat 7 10 then r else mkRat 0 1
    else mkRat 0 1

/-- The `common_words` set excluded by the containment branch of
`check_substring_similarity`. -/
def commonWordsCS : List Str :=
  [toL "wine", toL "vin", toL "vino", toL "casa", toL "de", toL "del",
   toL "della", toL "du", toL "grand", toL "petit", toL "reserve", toL "reserva"]

/-- Port of `check_substring_similarity`. -/
def check_substring_similarity (name1 name2 : Str) : ℚ :=
  if name1 = [] ∨ name2 = [] then mkRat 0 1
  else
    let norm1 := normalize_wine_name name1
    let norm2 := normalize_wine_name name2
    let words1 := ((splitWs norm1).filter (fun w => decide (w.length > 2))).toFinset
    let words2 := ((splitWs norm2).filter (fun w => decide (w.length > 2))).toFinset
    if words1 = ∅ ∨ words2 = ∅ then mkRat 0 1
    else
      let inter := words1 ∩ words2
      let smaller_set := min words1.card words2.card
      if inter = ∅ then mkRat 0 1
      else
        let overlap_ratio := mkRat inter.card smaller_set
        if overlap_ratio ≥ mkRat 4 5 then mkRat 9 10
        else if overlap_ratio ≥ mkRat 3 5 then mkRat 4 5
        else if overlap_ratio ≥ mkRat 2 5 then mkRat 7 10
        else
          let p := if norm1.length < norm2.length then (norm1, norm2) else (norm2, norm1)
          let shorter_words := (splitWs p.1).filter
            (fun w => !commonWordsCS.contains w && decide (w.length > 2))
          if shorter_words ≠ [] ∧ shorter_words.all (fun w => isSubstrL w p.2) then
            mkRat 17 20
          else mkRat 0 1

/-- The `key_wine_terms` set of `calculate_wine_similarity` (a Python set
used only through `any`, so list order is irrelevant). -/
def keyWineTerms : List Str :=
  [toL "cremant", toL "loire", toL "champagne", toL "chablis", toL "bordeaux",
   toL "burgundy", toL "sancerre", toL "bonitura", toL "tempranillo",
   toL "cabernet", toL "pinot", toL "chardonnay"]

/-- The "enhanced word-based matching" block of `calculate_wine_similarity`
(lines 442-455): shared words of length greater than 3, escalated by
`max(·, word_similarity * 0.9)` when a key wine term occurs in either
normalized name. -/
def sharedWordBoost (name1 name2 : Str) (s : ℚ) : ℚ :=
  if name1 ≠ [] ∧ name2 ≠ [] then
    let words1 := ((splitWs name1).filter (fun w => decide (w.length > 3))).toFinset
    let words2 := ((splitWs name2).filter (fun w => decide (w.length > 3))).toFinset
    if words1 ≠ ∅ ∧ words2 ≠ ∅ then
      let common := words1 ∩ words2
      if common ≠ ∅ then
        let word_similarity := mkRat common.card (min words1.card words2.card)
        if keyWineTerms.any (fun t => isSubstrL t name1 || isSubstrL t name2) then
          (if common ≠ ∅ then max s (qmul word_similarity (mkRat 9 10)) else s)
        else s
      else s
    else s
  else s

/-- The "enhanced producer matching" block of `calculate_wine_similarity`
(lines 458-467): any shared producer word of length greater than 2
escalates to at least 0.7. -/
def producerMatchBoost (wine1 wine2 : WineRecord) (s : ℚ) : ℚ :=
  if truthyO wine1.producer ∧ truthyO wine2.producer then
    let prod1 := normalize_wine_name (optVal wine1.producer)
    let prod2 := normalize_wine_name (optVal wine2.producer)
    if prod1 ≠ [] ∧ prod2 ≠ [] then
      let pw1 := ((splitWs prod1).filter (fun w => decide (w.length > 2))).toFinset
      let pw2 := ((splitWs prod2).filter (fun w => decide (w.length > 2))).toFinset
      if pw1 ∩ pw2 ≠ ∅ then max s (mkRat 7 10) else s
    else s
  else s

/-- Port of `calculate_wine_similarity`: identity-based base score, then the
escalation ladder (transliteration, substring containment, shared long
words with key terms, loose producer match), clamped by `min(1.0, ·)`. -/
def calculate_wine_similarity (wine1 wine2 : WineRecord) : ℚ :=
  let identity1 := extract_wine_identity wine1
  let identity2 := extract_wine_identity wine2
  let base := calculate_identity_similarity identity1 identity2
  let s1 := max base (check_transliteration_similarity wine1.name wine2.name)
  let s2 := max s1 (check_substring_similarity wine1.name wine2.name)
  let s3 := sharedWordBoost identity1.normalized_name identity2.normalized_name s2
  let s4 := producerMatchBoost wine1 wine2 s3
  min (mkRat 1 1) s4

/-! ## Japanese-content score, merge, deduplication -/

/-- Port of `get_japanese_content_score`: weighted count of fields that are
truthy and contain Japanese (name 20, producer 3, description 3, region 1,
country 1, grape_variety 1). -/
def get_japanese_content_score (wine : WineRecord) : Nat :=
  (if wine.name ≠ [] ∧ contains_japanese wine.name then 20 else 0) +
  (if truthyO wine.producer ∧ contains_japanese (optVal wine.producer) then 3 else 0) +
  (if truthyO wine.description ∧ contains_japanese (optVal wine.description) then 3 else 0) +
  (if truthyO wine.region ∧ contains_japanese (optVal wine.region) then 1 else 0) +
  (if truthyO wine.country ∧ contains_japanese (optVal wine.country) then 1 else 0) +
  (if truthyO wine.grape_variety ∧ contains_japanese (optVal wine.grape_variety) then 1 else 0)

/-- The inner `count_fields` helper of `merge_wine_info`: number of truthy
fields among producer, country, region, grape_variety, vintage, price,
alcohol_content, description (`source_file` is not counted). -/
def count_fields (wine : WineRecord) : Nat :=
  (if truthyO wine.producer then 1 else 0) +
  (if truthyO wine.country then 1 else 0) +
  (if truthyO wine.region then 1 else 0) +
  (if truthyO wine.grape_variety then 1 else 0) +
  (if truthyO wine.vintage then 1 else 0) +
  (if truthyO wine.price then 1 else 0) +
  (if truthyO wine.alcohol_content then 1 else 0) +
  (if truthyO wine.description then 1 else 0)

/-- Primary/secondary choice of `merge_wine_info` (lines 653-669): Japanese
content decides; on exactly equal scores the more complete record wins and
ties keep `wine1`. -/
def choosePrimary (wine1 wine2 : WineRecord) : WineRecord × WineRecord :=
  let jp_score1 := get_japanese_content_score wine1
  let jp_score2 := get_japanese_content_score wine2
  if jp_score1 > 0 ∧ jp_score2 = 0 then (wine1, wine2)
  else if jp_score2 > 0 ∧ jp_score1 = 0 then (wine2, wine1)
  else if jp_score1 ≠ jp_score2 then
    (if jp_score1 > jp_score2 then (wine1, wine2) else (wine2, wine1))
  else if count_fields wine2 > count_fields wine1 then (wine2, wine1)
  else (wine1, wine2)

/-- The inner `prefer_japanese_or_fill` helper of `merge_wine_info`. -/
def prefer_japanese_or_fill (primary_val secondary_val : Option Str) : Option Str :=
  if !truthyO primary_val && truthyO secondary_val then secondary_val
  else if !truthyO secondary_val && truthyO primary_val then primary_val
  else if truthyO primary_val && truthyO secondary_val then
    let primary_has_jp := contains_japanese (optVal primary_val)
    let secondary_has_jp := contains_japanese (optVal secondary_val)
    if secondary_has_jp && !primary_has_jp then secondary_val
    else if primary_has_jp && !secondary_has_jp then primary_val
    else if secondary_has_jp && primary_has_jp then
      (if (optVal secondary_val).length > (optVal primary_val).length then secondary_val
       else primary_val)
    else primary_val
  else primary_val

/-- Join of a list of strings with a separator (Python `sep.join`). -/
def joinSep (sep : Str) : List Str → Str
  | [] => []
  | [x] => x
  | x :: y :: r => x ++ sep ++ joinSep sep (y :: r)

/-- The `source_file` combination of `merge_wine_info` (lines 734-740):
`wine1`'s truthy value, then `wine2`'s truthy value unless it equals an
already-collected whole string, joined by `", "`. -/
def mergeSourceField (wine1 wine2 : WineRecord) : Option Str :=
  let sources0 := if truthyO wine1.source_file then [optVal wine1.source_file] else []
  let sources :=
    if truthyO wine2.source_file ∧ !sources0.contains (optVal wine2.source_file) then
      sources0 ++ [optVal wine2.source_file]
    else sources0
  some (joinSep (toL ", ") sources)

/-- The `wine_terms` list used by the name-resolution tail of
`merge_wine_info`. -/
def mergeNameTerms : List Str :=
  [toL "cremant", toL "brut", toL "zero", toL "blanc", toL "rouge", toL "reserve"]

/-- Port of `merge_wine_info` (without the `_debug_merges` side channel,
which never reaches the returned record). -/
def merge_wine_info (wine1 wine2 : WineRecord) : WineRecord :=
  let p := choosePrimary wine1 wine2
  let primary := p.1
  let secondary := p.2
  let vintage :=
    if !truthyO primary.vintage && truthyO secondary.vintage then secondary.vintage
    else primary.vintage
  let price :=
    if !truthyO primary.price && truthyO secondary.price then secondary.price
    else primary.price
  let alcohol_content :=
    if !truthyO primary.alcohol_content && truthyO secondary.alcohol_content then
      secondary.alcohol_content
    else primary.alcohol_content
  let d1 := stripBoth (optVal primary.description)
  let descriptions0 := if truthyO primary.description ∧ d1 ≠ [] then [d1] else []
  let d2 := stripBoth (optVal secondary.description)
  let descriptions :=
    if truthyO secondary.description ∧ d2 ≠ [] ∧ !descriptions0.contains d2 then
      descriptions0 ++ [d2]
    else descriptions0
  let description :=
    if descriptions ≠ [] then some (joinSep (toL " | ") descriptions) else none
  let wine1_has_japanese := contains_japanese wine1.name
  let wine2_has_japanese := contains_japanese wine2.name
  let finalName :=
    if wine1_has_japanese ∧ ¬wine2_has_japanese then wine1.name
    else if wine2_has_japanese ∧ ¬wine1_has_japanese then wine2.name
    else if wine1_has_japanese ∧ wine2_has_japanese then
      (if wine1.name.length > wine2.name.length then wine1.name
       else if wine2.name.length > wine1.name.length then wine2.name
       else primary.name)
    else
      (if mkRat wine2.name.length 1 > qmul (mkRat wine1.name.length 1) (mkRat 6 5) then
        wine2.name
       else if mkRat wine1.name.length 1 > qmul (mkRat wine2.name.length 1) (mkRat 6 5) then
        wine1.name
       else
        let wine1_terms := (mergeNameTerms.filter (fun t => isSubstrL t (lowerL wine1.name))).length
        let wine2_terms := (mergeNameTerms.filter (fun t => isSubstrL t (lowerL wine2.name))).length
        if wine2_terms > wine1_terms then wine2.name else wine1.name)
  { name := finalName
    producer := prefer_japanese_or_fill primary.producer secondary.producer
    country := prefer_japanese_or_fill primary.country secondary.country
    region := prefer_japanese_or_fill primary.region secondary.region
    grape_variety := prefer_japanese_or_fill primary.grape_variety secondary.grape_variety
    vintage := vintage
    price := price
    alcohol_content := alcohol_content
    description := description
    source_file := mergeSourceField wine1 wine2 }

/-- One row of the `similarities_found` debug list of `deduplicate_wines`. -/
structure SimEntry where
  wine1 : Str
  wine2 : Str
  similarity : ℚ
  merged : Bool
deriving DecidableEq

/-- Core loop of `deduplicate_wines`.  The list argument is the sequence of
not-yet-consumed records in order; each head is a cluster nucleus and its
cluster is the later unconsumed records within threshold, exactly as the
indexed loop of the source (consumed records are skipped there and removed
here).  The second component models the `similarities_found` variable: it is
re-initialised for every nucleus, so the value observable after the pass
(stored into `_debug_info`) is the one of the last nucleus processed;
`none` stands for "no nucleus processed". -/
def dedupGo (threshold : ℚ) (debug : Bool) : Nat → List WineRecord →
    List WineRecord × Option (List SimEntry)
  | _, [] => ([], none)
  | 0, l => (l, none)
  | fuel + 1, wine1 :: rest =>
    let entries :=
      if debug then
        (rest.filter (fun w => calculate_wine_similarity wine1 w > mkRat 3 10)).map
          (fun w => { wine1 := wine1.name, wine2 := w.name,
                      similarity := calculate_wine_similarity wine1 w,
                      merged := calculate_wine_similarity wine1 w ≥ threshold })
      else []
    let similar := rest.filter (fun w => calculate_wine_similarity wine1 w ≥ threshold)
    let remaining := rest.filter (fun w => !(calculate_wine_similarity wine1 w ≥ threshold))
    let merged := similar.foldl merge_wine_info wine1
    let t := dedupGo threshold debug fuel remaining
    (merged :: t.1, some (t.2.getD entries))

/-- Port of `deduplicate_wines`: returns the deduplicated list and the
`similarities` component of the `_debug_info` attribute as observable after
the call ( `[]` when the input is empty, in which case the source leaves the
attribute from a previous call in place — modelled as the empty trace). -/
def deduplicate_wines (wines : List WineRecord) (similarity_threshold : ℚ)
    (debug : Bool) : List WineRecord × List SimEntry :=
  if wines = [] then (wines, [])
  else
    let t := dedupGo similarity_threshold debug wines.length wines
    (t.1, t.2.getD [])

/-! ## Source-token accounting (for the `source_file` merge) -/

/-- Helper for `splitCS`: accumulator-based split at every `", "`. -/
def splitCSGo : Str → Str → List Str
  | acc, [] => [acc.reverse]
  | acc, ',' :: ' ' :: rest => acc.reverse :: splitCSGo [] rest
  | acc, c :: rest => splitCSGo (c :: acc) rest

/-- Python `s.split(", ")`: leftmost, non-overlapping. -/
def splitCS (s : Str) : List Str := splitCSGo [] s

/-- Comma-separated source tokens of an optional `source_file` value; a
falsy field carries no tokens. -/
def sourceTokens (o : Option Str) : List Str :=
  if truthyO o then splitCS (optVal o) else []

theorem splitCSGo_sep (acc rest : Str) :
    splitCSGo acc (',' :: ' ' :: rest) = acc.reverse :: splitCSGo [] rest := rfl

theorem splitCSGo_step (acc : Str) (c : Char) (rest : Str)
    (h : c ≠ ',' ∨ rest.head? ≠ some ' ') :
    splitCSGo acc (c :: rest) = splitCSGo (c :: acc) rest := by
  rw [splitCSGo.eq_def]
  rcases h with hc | hr
  · cases rest with
    | nil => simp [hc]
    | cons a l => cases l <;> simp [hc]
  · cases rest with
    | nil => cases hcc : decide (c = ',') <;> simp_all
    | cons a l =>
      have ha : a ≠ ' ' := by simpa using hr
      cases l <;> simp [ha]

theorem splitCSGo_append_bounded (n : Nat) : ∀ (x : Str), x.length ≤ n → ∀ (acc y : Str),
    splitCSGo acc (x ++ ',' :: ' ' :: y) = splitCSGo acc x ++ splitCSGo [] y := by
  induction n with
  | zero =>
    intro x hx acc y
    have : x = [] := List.eq_nil_of_length_eq_zero (Nat.le_zero.mp hx)
    subst this
    simp [splitCSGo]
  | succ n ih =>
    intro x hx acc y
    by_cases hsep : ∃ rest, x = ',' :: ' ' :: rest
    · obtain ⟨rest, hr⟩ := hsep
      subst hr
      have hlen : rest.length ≤ n := by simp at hx; omega
      rw [List.cons_append, List.cons_append, splitCSGo_sep, splitCSGo_sep,
        ih rest hlen [] y, List.cons_append]
    · cases x with
      | nil => simp [splitCSGo]
      | cons c rest =>
        have hcond : c ≠ ',' ∨ rest.head? ≠ some ' ' := by
          by_cases hc : c = ','
          · right
            intro hh
            apply hsep
            cases rest with
            | nil => simp at hh
            | cons a l =>
              simp at hh
              exact ⟨l, by rw [hc, hh]⟩
          · exact Or.inl hc
        have hcond2 : c ≠ ',' ∨ (rest ++ ',' :: ' ' :: y).head? ≠ some ' ' := by
          rcases hcond with hc | hr
          · exact Or.inl hc
          · right
            cases rest with
            | nil => simp
            | cons a l => simpa using hr
        have hlen : rest.length ≤ n := by simp at hx; omega
        rw [List.cons_append, splitCSGo_step _ _ _ hcond2, splitCSGo_step _ _ _ hcond,
          ih rest hlen]

theorem splitCS_append (x y : Str) :
    splitCS (x ++ ',' :: ' ' :: y) = splitCS x ++ splitCS y :=
  splitCSGo_append_bounded x.length x (Nat.le_refl _) [] y

/-! ## Claim C4 — merged `source_file` tokens -/

/-- Records used for the C4 counterexample: one multi-token provenance and
one single-token provenance overlapping its second token. -/
def srcMultiRec : WineRecord := { name := toL "x", source_file := some (toL "f1, f2") }

/-- Companion record for the C4 counterexample. -/
def srcSingleRec : WineRecord := { name := toL "y", source_file := some (toL "f2") }

/-- C4 counterexample: the claim "merge(a,b).source_file contains every
distinct comma-separated source token ... with no duplicate tokens" fails:
for `a.source_file = "f1, f2"` and `b.source_file = "f2"` the merged value
is `"f1, f2, f2"`, whose token list `[f1, f2, f2]` has a duplicate —
`merge_wine_info` deduplicates whole `source_file` strings, not tokens. -/
theorem merge_source_dedup_counterexample :
    (merge_wine_info srcMultiRec srcSingleRec).source_file = some (toL "f1, f2, f2") ∧
    ¬ (sourceTokens ((merge_wine_info srcMultiRec srcSingleRec).source_file)).Nodup := by
  constructor
  · decide
  · decide

/-- Helper: the token list of the combined `source_file` value. -/
theorem mergeSourceField_tokens (a b : WineRecord) :
    sourceTokens (mergeSourceField a b) =
      sourceTokens a.source_file ++
        (if truthyO b.source_file = true ∧
            ¬(truthyO a.source_file = true ∧ optVal b.source_file = optVal a.source_file)
         then sourceTokens b.source_file else []) := by
  simp only [mergeSourceField]
  rcases hsa : a.source_file with _ | va <;> rcases hsb : b.source_file with _ | vb
  · simp [truthyO, optVal, sourceTokens, joinSep]
  · by_cases hvb : vb = []
    · subst hvb
      simp [truthyO, optVal, sourceTokens, joinSep]
    · simp [truthyO, optVal, sourceTokens, joinSep, List.isEmpty_iff, hvb]
  · by_cases hva : va = []
    · subst hva
      simp [truthyO, optVal, sourceTokens, joinSep]
    · simp [truthyO, optVal, sourceTokens, joinSep, List.isEmpty_iff, hva]
  · by_cases hva : va = []
    · subst hva
      by_cases hvb : vb = []
      · subst hvb
        simp [truthyO, optVal, sourceTokens, joinSep]
      · simp [truthyO, optVal, sourceTokens, joinSep, List.isEmpty_iff, hvb]
    · by_cases hvb : vb = []
      · subst hvb
        simp [truthyO, optVal, sourceTokens, joinSep, List.isEmpty_iff, hva]
      · by_cases heq : vb = va
        · subst heq
          simp [truthyO, optVal, sourceTokens, joinSep, List.isEmpty_iff, hva, hvb,
            List.contains_cons]
        · have h1 : (!List.isEmpty va) = true := by simpa [List.isEmpty_iff] using hva
          have h2 : (!List.isEmpty vb) = true := by simpa [List.isEmpty_iff] using hvb
          simp only [truthyO, optVal, sourceTokens, Option.getD_some, toL]
          rw [if_pos h1]
          simp only [List.contains_cons, List.contains_nil, Bool.or_false]
          have h3 : (vb == va) = false := by
            simpa using heq
          simp [h1, h2, h3, heq, joinSep, splitCS_append]

/-- C4 (amended): the token list of `merge(a,b).source_file` is exactly
`a`'s tokens followed by `b`'s tokens, except that `b`'s whole string is
dropped when it is falsy or equal to `a`'s whole string — so every token of
either input is present, in first-seen order, but deduplication happens at
whole-string granularity only (duplicate tokens can survive, as the
counterexample shows). -/
theorem merge_source_tokens (a b : WineRecord) :
    sourceTokens ((merge_wine_info a b).source_file) =
      sourceTokens a.source_file ++
        (if truthyO b.source_file = true ∧
            ¬(truthyO a.source_file = true ∧ optVal b.source_file = optVal a.source_file)
         then sourceTokens b.source_file else []) := by
  have hsf : (merge_wine_info a b).source_file = mergeSourceField a b := by
    simp only [merge_wine_info]
  rw [hsf]
  exact mergeSourceField_tokens a b

/-! ## Claim C6 — primary-record selection rule -/

/-- The primary-selection rule exactly as claim C6 states it: exactly one
positive Japanese-content score wins; both positive and different, the
higher wins; equal scores (including both zero) fall back to strictly more
non-empty optional content fields; ties keep the first record.  (`true`
means the first argument is primary.) -/
def specPrimaryFirst (a b : WineRecord) : Bool :=
  let j1 := get_japanese_content_score a
  let j2 := get_japanese_content_score b
  if j1 > 0 ∧ j2 = 0 then true
  else if j2 > 0 ∧ j1 = 0 then false
  else if j1 > 0 ∧ j2 > 0 ∧ j1 ≠ j2 then decide (j1 > j2)
  else if count_fields a ≠ count_fields b then decide (count_fields a > count_fields b)
  else true

/-- C6: `merge_wine_info` selects its primary record exactly by the
Japanese-content rule of the claim; `choosePrimary` is the selection the
merger performs (source lines 653-669).  The count of "non-empty optional
fields" is over the eight content fields the source's `count_fields`
inspects (producer, country, region, grape variety, vintage, price, alcohol
content, description). -/
theorem choosePrimary_spec (a b : WineRecord) :
    choosePrimary a b = (if specPrimaryFirst a b then (a, b) else (b, a)) := by
  simp only [choosePrimary, specPrimaryFirst]
  split_ifs <;> simp_all <;> omega

/-! ## Claim C10 — merged name is one of the input names -/

/-- Helper: the primary record is one of the two inputs. -/
theorem choosePrimary_cases (a b : WineRecord) :
    choosePrimary a b = (a, b) ∨ choosePrimary a b = (b, a) := by
  simp only [choosePrimary]
  split_ifs <;> simp

/-- C10: in every branch of the name-resolution logic, the merged record's
name is exactly `a.name` or `b.name` — the merger never synthesizes a new
name string. -/
theorem merge_name_from_inputs (a b : WineRecord) :
    (merge_wine_info a b).name = a.name ∨ (merge_wine_info a b).name = b.name := by
  have hp := choosePrimary_cases a b
  simp only [merge_wine_info]
  rcases hp with h | h <;> rw [h] <;> split_ifs <;> simp

/-! ## Claim C9 — transliteration scenario ボニトゥラ / BONITURA -/

/-- First record of the C9 scenario. -/
def bonituraJP : WineRecord :=
  { name := toL "ボニトゥラ NV", country := some (toL "ポルトガル") }

/-- Second record of the C9 scenario. -/
def bonituraEN : WineRecord :=
  { name := toL "CASA DE FONTE PEQUENA BONITURA NV" }

/-- C9: the records `{name: "ボニトゥラ NV", country: "ポルトガル"}` and
`{name: "CASA DE FONTE PEQUENA BONITURA NV"}` score at least 0.9 (the
transliteration-table entry ボニトゥラ↔bonitura escalates to 0.95), and the
merge in either order keeps `"ボニトゥラ NV"` as the final name. -/
theorem bonitura_scenario :
    calculate_wine_similarity bonituraJP bonituraEN ≥ mkRat 9 10 ∧
    (merge_wine_info bonituraJP bonituraEN).name = toL "ボニトゥラ NV" ∧
    (merge_wine_info bonituraEN bonituraJP).name = toL "ボニトゥラ NV" := by
  refine ⟨by decide, by decide, by decide⟩

/-! ## Claim C2 — idempotence of normalization -/

/-- C2 counterexample: normalization is not idempotent.  On
`"ab 12 34"` the Latin year strip `\s+\d{2,4}$` removes only the last
trailing year token, so a second application strips again:
`normalize("ab 12 34") = "ab 12"` but `normalize("ab 12") = "ab"`. -/
theorem normalize_not_idempotent :
    normalize_wine_name (normalize_wine_name (toL "ab 12 34")) ≠
      normalize_wine_name (toL "ab 12 34") ∧
    normalize_wine_name (toL "ab 12 34") = toL "ab 12" ∧
    normalize_wine_name (toL "ab 12") = toL "ab" := by
  refine ⟨by decide, by decide, by decide⟩

/-- Suffix test (`str.endswith`). -/
def endsWithL (tok s : Str) : Bool := startsWithL tok.reverse s.reverse

/-- No two adjacent space characters. -/
def noDoubleSpace : Str → Bool
  | [] => true
  | [_] => true
  | a :: b :: r => !(a == ' ' && b == ' ') && noDoubleSpace (b :: r)

/-- A string is Japanese-canonical when it is a fixpoint candidate of the
Japanese branch of `normalize_wine_name`: non-empty, no ampersand or `<`,
some non-whitespace character in a Japanese range, all whitespace is a
plain single non-edge space, no trailing `NV` / four-digit year / colour
suffix, and no removable bracket/quote punctuation. -/
def jpCanonical (t : Str) : Bool :=
  decide (t ≠ []) &&
  !t.contains '&' && !t.contains '<' &&
  t.any (fun c => !isSpaceCh c && inJapaneseRanges c) &&
  t.all (fun c => !isSpaceCh c || c == ' ') &&
  noDoubleSpace t &&
  !(t.head? == some ' ') && !(t.getLast? == some ' ') &&
  !endsWithL (toL "NV") t &&
  decide (trailRunLength isAsciiDigit t < 4) &&
  !endsWithL (toL "赤") t && !endsWithL (toL "白") t && !endsWithL (toL "ロゼ") t &&
  t.all (fun c => !jpPunctList.contains c)

theorem htmlUnescapeGo_id (t : Str) (h : '&' ∉ t) : ∀ fuel, htmlUnescapeGo fuel t = t := by
  induction t with
  | nil => intro fuel; cases fuel <;> rfl
  | cons c r ih =>
    intro fuel
    cases fuel with
    | zero => rfl
    | succ n =>
      have hc : c ≠ '&' := fun hh => h (hh ▸ List.mem_cons_self c r)
      have hr : '&' ∉ r := fun hh => h (List.mem_cons_of_mem c hh)
      simp only [htmlUnescapeGo, if_neg hc]
      rw [ih hr n]

theorem htmlUnescape_id (t : Str) (h : '&' ∉ t) : htmlUnescape t = t :=
  htmlUnescapeGo_id t h t.length

theorem removeTagsGo_id (t : Str) (h : '<' ∉ t) : ∀ fuel, removeTagsGo fuel t = t := by
  induction t with
  | nil => intro fuel; cases fuel <;> rfl
  | cons c r ih =>
    intro fuel
    cases fuel with
    | zero => rfl
    | succ n =>
      have hc : c ≠ '<' := fun hh => h (hh ▸ List.mem_cons_self c r)
      have hr : '<' ∉ r := fun hh => h (List.mem_cons_of_mem c hh)
      simp only [removeTagsGo, if_neg hc]
      rw [ih hr n]

theorem removeTags_id (t : Str) (h : '<' ∉ t) : removeTags t = t :=
  removeTagsGo_id t h t.length

theorem stripLead_id (t : Str) (hsp : ∀ c ∈ t, isSpaceCh c = true → c = ' ')
    (hd : t.head? ≠ some ' ') : stripLead t = t := by
  cases t with
  | nil => rfl
  | cons c r =>
    have hc : isSpaceCh c = false := by
      cases hcs : isSpaceCh c with
      | false => rfl
      | true =>
        have hce : c = ' ' := hsp c (List.mem_cons_self c r) hcs
        exact absurd (show (c :: r).head? = some ' ' by rw [hce]; rfl) hd
    simp [stripLead, List.dropWhile_cons, hc]

theorem stripTrail_id (t : Str) (hsp : ∀ c ∈ t, isSpaceCh c = true → c = ' ')
    (hd : t.getLast? ≠ some ' ') : stripTrail t = t := by
  unfold stripTrail
  rw [show List.dropWhile isSpaceCh t.reverse = stripLead t.reverse from rfl,
    stripLead_id t.reverse (fun c hc => hsp c (List.mem_reverse.mp hc))
      (by rwa [List.head?_reverse]),
    List.reverse_reverse]

theorem collapseWsGo_id (t : Str) (hsp : ∀ c ∈ t, isSpaceCh c = true → c = ' ')
    (hnd : noDoubleSpace t = true) :
    ∀ b : Bool, (b = true → t.head? ≠ some ' ') → collapseWsGo b t = t := by
  induction t with
  | nil => intro b _; rfl
  | cons c r ih =>
    intro b hb
    have hspr : ∀ x ∈ r, isSpaceCh x = true → x = ' ' :=
      fun x hx => hsp x (List.mem_cons_of_mem c hx)
    have hndr : noDoubleSpace r = true := by
      cases r with
      | nil => rfl
      | cons d r' =>
        have : noDoubleSpace (c :: d :: r') = true := hnd
        simp only [noDoubleSpace, Bool.and_eq_true] at this
        exact this.2
    cases hcs : isSpaceCh c with
    | false =>
      simp only [collapseWsGo, hcs, if_false, Bool.false_eq_true]
      rw [ih hspr hndr false (by simp)]
    | true =>
      have hce : c = ' ' := hsp c (List.mem_cons_self c r) hcs
      have hbf : b = false := by
        cases b with
        | false => rfl
        | true => exact absurd (show (c :: r).head? = some ' ' by rw [hce]; rfl) (hb rfl)
      subst hbf
      have hrh : r.head? ≠ some ' ' := by
        cases r with
        | nil => simp
        | cons d r' =>
          have hthis : noDoubleSpace (c :: d :: r') = true := hnd
          simp only [noDoubleSpace, Bool.and_eq_true] at hthis
          have hd2 : ¬c = ' ' ∨ ¬d = ' ' := by
            simpa using hthis.1
          intro hh
          have hde : d = ' ' := by
            simpa using hh
          exact hd2.elim (fun h => h hce) (fun h => h hde)
      simp only [collapseWsGo, hcs, if_true, Bool.false_eq_true, if_false]
      rw [ih hspr hndr true (fun _ => hrh), hce]

theorem collapseWs_id (t : Str) (hsp : ∀ c ∈ t, isSpaceCh c = true → c = ' ')
    (hnd : noDoubleSpace t = true) : collapseWs t = t :=
  collapseWsGo_id t hsp hnd false (by simp)

theorem stripTokStar_id (tok t : Str) (h : endsWithL tok t = false) :
    stripTokStar tok t = t := by
  unfold stripTokStar
  rw [show startsWithL tok.reverse t.reverse = endsWithL tok t from rfl, h]
  simp

theorem stripTrailYearJP_id (t : Str) (h : trailRunLength isAsciiDigit t < 4) :
    stripTrailYearJP t = t := by
  simp only [stripTrailYearJP]
  rw [if_pos h]

/-- C2 (amended, fixpoint lemma): `normalize_wine_name` is the identity on
every Japanese-canonical string. -/
theorem jpCanonical_fixpoint (t : Str) (h : jpCanonical t = true) :
    normalize_wine_name t = t := by
  simp only [jpCanonical, Bool.and_eq_true, decide_eq_true_eq] at h
  obtain ⟨⟨⟨⟨⟨⟨⟨⟨⟨⟨⟨⟨⟨hne, hamp⟩, hlt⟩, hjp⟩, hsp⟩, hnd⟩, hh⟩, hl⟩, hnv⟩, hyr⟩, hr1⟩, hr2⟩, hr3⟩, hpunct⟩ := h
  have hamp' : '&' ∉ t := by simpa using hamp
  have hlt' : '<' ∉ t := by simpa using hlt
  have hsp' : ∀ c ∈ t, isSpaceCh c = true → c = ' ' := by
    intro c hc hcs
    have := (List.all_eq_true.mp hsp) c hc
    simp [hcs] at this
    exact this
  have hh' : t.head? ≠ some ' ' := by simpa using hh
  have hl' : t.getLast? ≠ some ' ' := by simpa using hl
  have hcj : contains_japanese t = true := by
    unfold contains_japanese
    rw [htmlUnescape_id t hamp']
    exact hjp
  have hpunct' : ∀ c ∈ t, (!jpPunctList.contains c) = true :=
    fun c hc => (List.all_eq_true.mp hpunct) c hc
  have e0 : removeTags t = t := removeTags_id t hlt'
  have e1 : stripBoth t = t := by
    unfold stripBoth
    rw [stripLead_id t hsp' hh', stripTrail_id t hsp' hl']
  have e2 : collapseWs t = t := collapseWs_id t hsp' hnd
  have e3 : stripTokStar (toL "NV") t = t := stripTokStar_id _ _ (by simpa using hnv)
  have e4 : stripTrailYearJP t = t := stripTrailYearJP_id t hyr
  have e5 : stripTokStar (toL "赤") t = t := stripTokStar_id _ _ (by simpa using hr1)
  have e6 : stripTokStar (toL "白") t = t := stripTokStar_id _ _ (by simpa using hr2)
  have e7 : stripTokStar (toL "ロゼ") t = t := stripTokStar_id _ _ (by simpa using hr3)
  have e8 : t.filter (fun c => !jpPunctList.contains c) = t :=
    List.filter_eq_self.mpr hpunct'
  unfold normalize_wine_name
  rw [if_neg hne]
  simp only [e0, hcj, if_true, e1, e2, e3, e4, e5, e6, e7, e8]

/-- C2 (amended): normalization is not idempotent in general (see
`normalize_not_idempotent`); it is idempotent at every input whose
normalized form is Japanese-canonical — i.e. whenever a pass leaves no
further strippable material, a second pass is the identity. -/
theorem normalize_idempotent_on_jpCanonical (s : Str)
    (h : jpCanonical (normalize_wine_name s) = true) :
    normalize_wine_name (normalize_wine_name s) = normalize_wine_name s :=
  jpCanonical_fixpoint (normalize_wine_name s) h

/-- Witness for `normalize_idempotent_on_jpCanonical` at `"ボニトゥラ NV"`,
whose normalization `"ボニトゥラ"` is Japanese-canonical. -/
theorem normalize_idempotent_on_jpCanonical_witness :
    jpCanonical (normalize_wine_name (toL "ボニトゥラ NV")) = true ∧
    normalize_wine_name (normalize_wine_name (toL "ボニトゥラ NV")) =
      normalize_wine_name (toL "ボニトゥラ NV") :=
  ⟨by decide, normalize_idempotent_on_jpCanonical (toL "ボニトゥラ NV") (by decide)⟩

/-! ## Bounds machinery for claim C5 -/

theorem mkRat_nonneg (n : Int) (hn : 0 ≤ n) (d : Nat) : 0 ≤ mkRat n d := by
  rw [Rat.mkRat_eq_div]
  exact div_nonneg (by exact_mod_cast hn) (by positivity)

theorem mkRat_nat_le_one (n d : Nat) (h : n ≤ d) : mkRat (n : Int) d ≤ 1 := by
  rw [Rat.mkRat_eq_div]
  rcases Nat.eq_zero_or_pos d with hd | hd
  · subst hd
    simp
  · rw [div_le_one (by exact_mod_cast hd)]
    exact_mod_cast h

theorem foldl_qadd_map (f : α → ℚ) (l : List α) (q0 : ℚ) :
    l.foldl (fun acc s => qadd acc (f s)) q0 = q0 + (l.map f).sum := by
  induction l generalizing q0 with
  | nil => simp
  | cons x r ih =>
    rw [List.foldl_cons, ih (qadd q0 (f x)), qadd_eq]
    rw [List.map_cons, List.sum_cons]
    ring

/-- Goodness of one signal: score in the unit interval, positive weight. -/
def GoodSig (s : SigTag × ℚ × ℚ) : Prop := 0 ≤ s.2.1 ∧ s.2.1 ≤ 1 ∧ 0 < s.2.2

theorem overlap_bounds (x y : Finset Str) :
    0 ≤ (if x ∪ y ≠ ∅ then mkRat ((x ∩ y).card : Int) (x ∪ y).card else mkRat 0 1) ∧
    (if x ∪ y ≠ ∅ then mkRat ((x ∩ y).card : Int) (x ∪ y).card else mkRat 0 1) ≤ 1 := by
  split_ifs
  · exact ⟨mkRat_nonneg _ (by positivity) _,
      mkRat_nat_le_one _ _ (Finset.card_le_card
        (Finset.Subset.trans Finset.inter_subset_left Finset.subset_union_left))⟩
  · constructor <;> decide

theorem identitySignals_bounds (i1 i2 : WineIdentity) :
    ∀ s ∈ identitySignals i1 i2, GoodSig s := by
  intro s hs
  unfold identitySignals at hs
  simp only [List.mem_append] at hs
  rcases hs with ((((hs | hs) | hs) | hs) | hs) | hs
  · by_cases hc : i1.name_words ≠ ∅ ∧ i2.name_words ≠ ∅
    · rw [if_pos hc] at hs
      rcases List.mem_cons.mp hs with rfl | hs2
      · exact ⟨(overlap_bounds _ _).1, (overlap_bounds _ _).2,
          show (0:ℚ) < mkRat 2 5 by decide⟩
      · split_ifs at hs2
        · rcases List.mem_singleton.mp hs2 with rfl
          exact ⟨by decide, by decide, by decide⟩
        · simp at hs2
    · rw [if_neg hc] at hs
      simp at hs
  · by_cases hc : i1.producer_words ≠ ∅ ∧ i2.producer_words ≠ ∅
    · rw [if_pos hc] at hs
      rcases List.mem_singleton.mp hs with rfl
      exact ⟨(overlap_bounds _ _).1, (overlap_bounds _ _).2,
        show (0:ℚ) < mkRat 1 5 by decide⟩
    · rw [if_neg hc] at hs
      simp at hs
  · by_cases hc : i1.wine_types ≠ ∅ ∧ i2.wine_types ≠ ∅ ∧ i1.wine_types ∩ i2.wine_types ≠ ∅
    · rw [if_pos hc] at hs
      rcases List.mem_singleton.mp hs with rfl
      exact ⟨by decide, by decide, by decide⟩
    · rw [if_neg hc] at hs
      simp at hs
  · by_cases hc : i1.regions ≠ ∅ ∧ i2.regions ≠ ∅ ∧ i1.regions ∩ i2.regions ≠ ∅
    · rw [if_pos hc] at hs
      rcases List.mem_singleton.mp hs with rfl
      exact ⟨by decide, by decide, by decide⟩
    · rw [if_neg hc] at hs
      simp at hs
  · rcases hg1 : i1.grape_variety with _ | g1 <;> rcases hg2 : i2.grape_variety with _ | g2 <;>
      rw [hg1, hg2] at hs
    · simp at hs
    · simp at hs
    · simp at hs
    · simp only [] at hs
      split_ifs at hs
      · rcases List.mem_singleton.mp hs with rfl
        exact ⟨by decide, by decide, by decide⟩
      · simp at hs
  · by_cases hc : i1.normalized_name ≠ [] ∧ i2.normalized_name ≠ [] ∧
        i1.normalized_name.length > 5 ∧ i2.normalized_name.length > 5
    · rw [if_pos hc] at hs
      split_ifs at hs <;>
        first
        | (rcases List.mem_singleton.mp hs with rfl
           exact ⟨mkRat_nonneg _ (by positivity) _,
             mkRat_nat_le_one _ _ (Finset.card_le_card Finset.inter_subset_left),
             show (0:ℚ) < mkRat 1 10 by decide⟩)
        | simp at hs
    · rw [if_neg hc] at hs
      simp at hs

theorem mkRat_zero_one : (mkRat 0 1 : ℚ) = 0 := by decide

theorem foldl_weights (L : List (SigTag × ℚ × ℚ)) (q0 : ℚ) :
    L.foldl (fun acc s => qadd acc s.2.2) q0 = q0 + (L.map (fun s => s.2.2)).sum := by
  induction L generalizing q0 with
  | nil => simp
  | cons x r ih =>
    rw [List.foldl_cons, ih, qadd_eq, List.map_cons, List.sum_cons]
    ring

theorem foldl_wsum (L : List (SigTag × ℚ × ℚ)) (q0 : ℚ) :
    L.foldl (fun acc s => qadd acc (qmul s.2.1 s.2.2)) q0 =
      q0 + (L.map (fun s => s.2.1 * s.2.2)).sum := by
  induction L generalizing q0 with
  | nil => simp
  | cons x r ih =>
    rw [List.foldl_cons, ih, qadd_eq, qmul_eq, List.map_cons, List.sum_cons]
    ring

theorem identity_similarity_bounds (i1 i2 : WineIdentity) :
    0 ≤ calculate_identity_similarity i1 i2 ∧ calculate_identity_similarity i1 i2 ≤ 1 := by
  unfold calculate_identity_similarity
  by_cases hempty : identitySignals i1 i2 = []
  · rw [if_pos hempty]
    constructor <;> decide
  · rw [if_neg hempty]
    dsimp only
    rw [foldl_weights, foldl_wsum, mkRat_zero_one, zero_add, zero_add]
    have hb := identitySignals_bounds i1 i2
    set L := identitySignals i1 i2 with hL
    have hwsum_nonneg : 0 ≤ (L.map fun s => s.2.1 * s.2.2).sum := by
      apply List.sum_nonneg
      intro x hx
      obtain ⟨y, hy, rfl⟩ := List.mem_map.mp hx
      have := hb y hy
      exact mul_nonneg this.1 (le_of_lt this.2.2)
    have hle : (L.map fun s => s.2.1 * s.2.2).sum ≤ (L.map fun s => s.2.2).sum := by
      apply List.sum_le_sum
      intro y hy
      have := hb y hy
      exact mul_le_of_le_one_left (le_of_lt this.2.2) this.2.1
    by_cases hpos : (L.map fun s => s.2.2).sum > 0
    · rw [if_pos hpos, qdiv_eq]
      exact ⟨div_nonneg hwsum_nonneg (le_of_lt hpos),
        (div_le_one hpos).mpr hle⟩
    · rw [if_neg hpos]
      constructor <;> decide

theorem romanization_bounds (n1 n2 : Str) :
    0 ≤ check_romanization_similarity n1 n2 ∧ check_romanization_similarity n1 n2 ≤ 1 := by
  unfold check_romanization_similarity
  dsimp only
  split_ifs <;> constructor <;> decide

theorem transliteration_bounds (n1 n2 : Str) :
    0 ≤ check_transliteration_similarity n1 n2 ∧ check_transliteration_similarity n1 n2 ≤ 1 := by
  unfold check_transliteration_similarity
  dsimp only
  split_ifs
  · constructor <;> decide
  · constructor <;> decide
  · constructor <;> decide
  · exact romanization_bounds n1 n2
  · constructor <;> decide
  · constructor <;> decide

theorem substring_bounds (n1 n2 : Str) :
    0 ≤ check_substring_similarity n1 n2 ∧ check_substring_similarity n1 n2 ≤ 1 := by
  unfold check_substring_similarity
  dsimp only
  split_ifs <;> constructor <;> decide

theorem sharedWordBoost_bounds (n1 n2 : Str) (s : ℚ) (h0 : 0 ≤ s) (h1 : s ≤ 1) :
    0 ≤ sharedWordBoost n1 n2 s ∧ sharedWordBoost n1 n2 s ≤ 1 := by
  unfold sharedWordBoost
  dsimp only
  split_ifs
  all_goals try exact ⟨h0, h1⟩
  constructor
  · exact le_max_of_le_left h0
  · apply max_le h1
    rw [qmul_eq]
    set w1 := ((splitWs n1).filter (fun w => decide (w.length > 3))).toFinset
    set w2 := ((splitWs n2).filter (fun w => decide (w.length > 3))).toFinset
    have hle1 : mkRat ((w1 ∩ w2).card : Int) (min w1.card w2.card) ≤ 1 :=
      mkRat_nat_le_one _ _ (le_min
        (Finset.card_le_card Finset.inter_subset_left)
        (Finset.card_le_card Finset.inter_subset_right))
    calc mkRat ((w1 ∩ w2).card : Int) (min w1.card w2.card) * mkRat 9 10
        ≤ 1 * mkRat 9 10 := by
          apply mul_le_mul_of_nonneg_right hle1
          decide
      _ ≤ 1 := by
          rw [one_mul]
          decide

theorem producerMatchBoost_bounds (a b : WineRecord) (s : ℚ) (h0 : 0 ≤ s) (h1 : s ≤ 1) :
    0 ≤ producerMatchBoost a b s ∧ producerMatchBoost a b s ≤ 1 := by
  unfold producerMatchBoost
  dsimp only
  split_ifs
  all_goals try exact ⟨h0, h1⟩
  constructor
  · exact le_max_of_le_left h0
  · exact max_le h1 (by decide)

theorem wine_similarity_bounds (a b : WineRecord) :
    0 ≤ calculate_wine_similarity a b ∧ calculate_wine_similarity a b ≤ 1 := by
  unfold calculate_wine_similarity
  dsimp only
  have hbase := identity_similarity_bounds (extract_wine_identity a) (extract_wine_identity b)
  have htr := transliteration_bounds a.name b.name
  have hsb := substring_bounds a.name b.name
  have h1 : 0 ≤ max (calculate_identity_similarity (extract_wine_identity a) (extract_wine_identity b))
      (check_transliteration_similarity a.name b.name) ∧
      max (calculate_identity_similarity (extract_wine_identity a) (extract_wine_identity b))
      (check_transliteration_similarity a.name b.name) ≤ 1 :=
    ⟨le_max_of_le_left hbase.1, max_le hbase.2 htr.2⟩
  have h2 : 0 ≤ max (max (calculate_identity_similarity (extract_wine_identity a) (extract_wine_identity b))
      (check_transliteration_similarity a.name b.name)) (check_substring_similarity a.name b.name) ∧
      max (max (calculate_identity_similarity (extract_wine_identity a) (extract_wine_identity b))
      (check_transliteration_similarity a.name b.name)) (check_substring_similarity a.name b.name) ≤ 1 :=
    ⟨le_max_of_le_left h1.1, max_le h1.2 hsb.2⟩
  have h3 := sharedWordBoost_bounds (extract_wine_identity a).normalized_name
    (extract_wine_identity b).normalized_name _ h2.1 h2.2
  have h4 := producerMatchBoost_bounds a b _ h3.1 h3.2
  constructor
  · exact le_min (by decide) h4.1
  · exact min_le_of_left_le (by decide)

/-- C5: for every pair of records the similarity score lies in the closed
unit interval: every collected signal is in `[0,1]` with positive weight
(so the weighted base score is in `[0,1]`), every escalation value is a
non-negative constant at most `0.95`, and the final `min(1.0, ·)` clamp
keeps the result at most one. -/
theorem wine_similarity_in_unit_interval (a b : WineRecord) :
    0 ≤ calculate_wine_similarity a b ∧ calculate_wine_similarity a b ≤ 1 :=
  wine_similarity_bounds a b

/-! ## Claim C3 — optional fields short-circuit to "no signal" -/

theorem signals_tag_conditions (i1 i2 : WineIdentity) : ∀ s ∈ identitySignals i1 i2,
    (s.1 = SigTag.producer → i1.producer_words ≠ ∅ ∧ i2.producer_words ≠ ∅) ∧
    (s.1 = SigTag.regions → i1.regions ≠ ∅ ∧ i2.regions ≠ ∅) ∧
    (s.1 = SigTag.grape → ∃ g1 g2, i1.grape_variety = some g1 ∧ i2.grape_variety = some g2 ∧
      g1 ≠ [] ∧ g2 ≠ []) := by
  intro s hs
  unfold identitySignals at hs
  simp only [List.mem_append] at hs
  rcases hs with ((((hs | hs) | hs) | hs) | hs) | hs
  · by_cases hc : i1.name_words ≠ ∅ ∧ i2.name_words ≠ ∅
    · rw [if_pos hc] at hs
      rcases List.mem_cons.mp hs with rfl | hs2
      · refine ⟨?_, ?_, ?_⟩ <;> intro h <;> simp at h
      · split_ifs at hs2
        · rcases List.mem_singleton.mp hs2 with rfl
          refine ⟨?_, ?_, ?_⟩ <;> intro h <;> simp at h
        · simp at hs2
    · rw [if_neg hc] at hs
      simp at hs
  · by_cases hc : i1.producer_words ≠ ∅ ∧ i2.producer_words ≠ ∅
    · rw [if_pos hc] at hs
      rcases List.mem_singleton.mp hs with rfl
      refine ⟨fun _ => hc, ?_, ?_⟩ <;> intro h <;> simp at h
    · rw [if_neg hc] at hs
      simp at hs
  · by_cases hc : i1.wine_types ≠ ∅ ∧ i2.wine_types ≠ ∅ ∧ i1.wine_types ∩ i2.wine_types ≠ ∅
    · rw [if_pos hc] at hs
      rcases List.mem_singleton.mp hs with rfl
      refine ⟨?_, ?_, ?_⟩ <;> intro h <;> simp at h
    · rw [if_neg hc] at hs
      simp at hs
  · by_cases hc : i1.regions ≠ ∅ ∧ i2.regions ≠ ∅ ∧ i1.regions ∩ i2.regions ≠ ∅
    · rw [if_pos hc] at hs
      rcases List.mem_singleton.mp hs with rfl
      refine ⟨?_, fun _ => ⟨hc.1, hc.2.1⟩, ?_⟩ <;> intro h <;> simp at h
    · rw [if_neg hc] at hs
      simp at hs
  · rcases hg1 : i1.grape_variety with _ | g1 <;> rcases hg2 : i2.grape_variety with _ | g2 <;>
      rw [hg1, hg2] at hs
    · simp at hs
    · simp at hs
    · simp at hs
    · simp only [] at hs
      split_ifs at hs with hc
      · rcases List.mem_singleton.mp hs with rfl
        refine ⟨?_, ?_, fun _ => ⟨g1, g2, rfl, rfl, hc.1, hc.2.1⟩⟩ <;> intro h <;> simp at h
      · simp at hs
  · by_cases hc : i1.normalized_name ≠ [] ∧ i2.normalized_name ≠ [] ∧
        i1.normalized_name.length > 5 ∧ i2.normalized_name.length > 5
    · rw [if_pos hc] at hs
      split_ifs at hs <;>
        first
        | (rcases List.mem_singleton.mp hs with rfl
           refine ⟨?_, ?_, ?_⟩ <;> intro h <;> simp at h)
        | simp at hs
    · rw [if_neg hc] at hs
      simp at hs

theorem extract_producer_words_empty (a : WineRecord) (h : truthyO a.producer = false) :
    (extract_wine_identity a).producer_words = ∅ := by
  simp [extract_wine_identity, h]

theorem extract_grape_none (a : WineRecord) (h : truthyO a.grape_variety = false) :
    (extract_wine_identity a).grape_variety = none := by
  simp [extract_wine_identity, h]

theorem extract_regions_empty (a : WineRecord) (h1 : truthyO a.region = false)
    (h2 : truthyO a.country = false) : (extract_wine_identity a).regions = ∅ := by
  simp [extract_wine_identity, h1, h2]

/-- C3: the similarity/merge pipeline is total — in this embedding every
operation is a total function of the records, so no input can raise — and
each optional-field access short-circuits on missing (falsy) data, which is
treated as "no signal": a missing producer (resp. grape variety, resp.
region and country) on either side contributes no producer (grape, region)
signal to the weighted score and disables the producer escalation, and the
score still degrades to a well-defined value in the unit interval. -/
theorem optional_fields_short_circuit (a b : WineRecord) :
    ((truthyO a.producer = false ∨ truthyO b.producer = false) →
      (∀ s ∈ identitySignals (extract_wine_identity a) (extract_wine_identity b),
        s.1 ≠ SigTag.producer) ∧
      (∀ q, producerMatchBoost a b q = q)) ∧
    ((truthyO a.grape_variety = false ∨ truthyO b.grape_variety = false) →
      ∀ s ∈ identitySignals (extract_wine_identity a) (extract_wine_identity b),
        s.1 ≠ SigTag.grape) ∧
    (((truthyO a.region = false ∧ truthyO a.country = false) ∨
      (truthyO b.region = false ∧ truthyO b.country = false)) →
      ∀ s ∈ identitySignals (extract_wine_identity a) (extract_wine_identity b),
        s.1 ≠ SigTag.regions) ∧
    0 ≤ calculate_wine_similarity a b := by
  refine ⟨?_, ?_, ?_, (wine_similarity_bounds a b).1⟩
  · intro h
    constructor
    · intro s hs heq
      have := ((signals_tag_conditions _ _ s hs).1 heq)
      rcases h with h | h
      · exact this.1 (extract_producer_words_empty a h)
      · exact this.2 (extract_producer_words_empty b h)
    · intro q
      unfold producerMatchBoost
      rcases h with h | h <;> rw [if_neg (by simp [h])]
  · intro h s hs heq
    obtain ⟨g1, g2, hg1, hg2, _, _⟩ := (signals_tag_conditions _ _ s hs).2.2 heq
    rcases h with h | h
    · rw [extract_grape_none a h] at hg1
      cases hg1
    · rw [extract_grape_none b h] at hg2
      cases hg2
  · intro h s hs heq
    have := (signals_tag_conditions _ _ s hs).2.1 heq
    rcases h with ⟨h1, h2⟩ | ⟨h1, h2⟩
    · exact this.1 (extract_regions_empty a h1 h2)
    · exact this.2 (extract_regions_empty b h1 h2)

/-- Record with only a name, used by the C3 witness. -/
def bareRecA : WineRecord := { name := toL "alpha beta" }

/-- Record with only a name, used by the C3 witness. -/
def bareRecB : WineRecord := { name := toL "alpha gamma" }

/-- Witness for `optional_fields_short_circuit` at two name-only records:
the hypotheses (falsy producer / grape / region+country) hold, and the
conclusions are obtained by applying the theorem. -/
theorem optional_fields_short_circuit_witness :
    truthyO bareRecA.producer = false ∧
    (∀ s ∈ identitySignals (extract_wine_identity bareRecA) (extract_wine_identity bareRecB),
      s.1 ≠ SigTag.producer) ∧
    producerMatchBoost bareRecA bareRecB (mkRat 1 2) = mkRat 1 2 ∧
    (∀ s ∈ identitySignals (extract_wine_identity bareRecA) (extract_wine_identity bareRecB),
      s.1 ≠ SigTag.grape) ∧
    (∀ s ∈ identitySignals (extract_wine_identity bareRecA) (extract_wine_identity bareRecB),
      s.1 ≠ SigTag.regions) ∧
    0 ≤ calculate_wine_similarity bareRecA bareRecB :=
  ⟨by decide,
   ((optional_fields_short_circuit bareRecA bareRecB).1 (Or.inl (by decide))).1,
   ((optional_fields_short_circuit bareRecA bareRecB).1 (Or.inl (by decide))).2 (mkRat 1 2),
   (optional_fields_short_circuit bareRecA bareRecB).2.1 (Or.inl (by decide)),
   (optional_fields_short_circuit bareRecA bareRecB).2.2.1 (Or.inl ⟨by decide, by decide⟩),
   (optional_fields_short_circuit bareRecA bareRecB).2.2.2⟩

/-! ## Claim C7 — single-pass greedy, non-transitive clustering -/

/-- C7: for any three records with `sim(A,B) ≥ t`, `sim(B,C) ≥ t` but
`sim(A,C) < t`, deduplication returns exactly the merge of A and B (A as
nucleus, B consumed) followed by C unchanged: the pass never revisits B as
a nucleus, so B's link to C is ignored (greedy, not transitive closure). -/
theorem dedup_greedy_nontransitive (A B C : WineRecord) (t : ℚ)
    (hAB : calculate_wine_similarity A B ≥ t)
    (hBC : calculate_wine_similarity B C ≥ t)
    (hAC : ¬ calculate_wine_similarity A C ≥ t) :
    (deduplicate_wines [A, B, C] t false).1 = [merge_wine_info A B, C] := by
  have h1 : decide (calculate_wine_similarity A B ≥ t) = true := decide_eq_true hAB
  have h2 : decide (calculate_wine_similarity A C ≥ t) = false := decide_eq_false hAC
  have hkeep := hBC
  simp [deduplicate_wines, dedupGo, h1, h2]

/-- Nucleus record of the C7 witness chain. -/
def greedyA : WineRecord := { name := toL "シャルドネ" }

/-- Middle record of the C7 witness chain (close to both ends). -/
def greedyB : WineRecord := { name := toL "chardonnay castle" }

/-- End record of the C7 witness chain (unrelated to the nucleus). -/
def greedyC : WineRecord := { name := toL "golden castle" }

/-- Witness for `dedup_greedy_nontransitive` at threshold 0.5:
`sim(A,B) = 0.95`, `sim(B,C) = 0.7`, `sim(A,C) = 0`. -/
theorem dedup_greedy_nontransitive_witness :
    (calculate_wine_similarity greedyA greedyB ≥ mkRat 1 2) ∧
    (calculate_wine_similarity greedyB greedyC ≥ mkRat 1 2) ∧
    ¬(calculate_wine_similarity greedyA greedyC ≥ mkRat 1 2) ∧
    (deduplicate_wines [greedyA, greedyB, greedyC] (mkRat 1 2) false).1 =
      [merge_wine_info greedyA greedyB, greedyC] :=
  ⟨by decide, by decide, by decide,
   dedup_greedy_nontransitive greedyA greedyB greedyC (mkRat 1 2)
     (by decide) (by decide) (by decide)⟩

/-! ## Claim C8 — debug trace drops earlier nuclei -/

/-- First record of the C8 failing input (pairs with `dbgB` at ≈0.418). -/
def dbgA : WineRecord := { name := toL "brut alpha one" }

/-- Second record of the C8 failing input. -/
def dbgB : WineRecord := { name := toL "brut beta two" }

/-- Third record of the C8 failing input (pairs with `dbgD` at ≈0.418). -/
def dbgC : WineRecord := { name := toL "rouge gamma six" }

/-- Fourth record of the C8 failing input. -/
def dbgD : WineRecord := { name := toL "rouge delta ten" }

/-- C8 (code bug): with `debug = true` the pairs (A,B) and (C,D) both score
23/55 ≈ 0.418 > 0.3 and are compared (under nuclei A and C respectively),
yet the debug structure observable after the call is empty: the source
re-initialises `similarities_found` for every nucleus and stores only the
final nucleus's list into `_debug_info`, so entries recorded under earlier
nuclei are lost — the claim (and spec §4.5/§6) requires every compared pair
above 0.3 across all nuclei to be exposed. -/
theorem debug_similarities_lost :
    calculate_wine_similarity dbgA dbgB > mkRat 3 10 ∧
    calculate_wine_similarity dbgC dbgD > mkRat 3 10 ∧
    (deduplicate_wines [dbgA, dbgB, dbgC, dbgD] (mkRat 1 2) true).2 = [] :=
  ⟨by decide, by decide, by decide⟩

/-! ## Claim C1 — symmetry of the similarity score -/

/-- Record used by the C1 counterexample (normalized name "ab ab ab": its
only word is short, so its keyword set is empty). -/
def asymA : WineRecord := { name := toL "ab ab ab" }

/-- Record used by the C1 counterexample (normalized name "ab cdefg", same
length as "ab ab ab"). -/
def asymB : WineRecord := { name := toL "ab cdefg" }

/-- C1 counterexample: the similarity is not symmetric.  The word-containment
check orders the two equal-length normalized names by an asymmetric
tie-break (ties pick the second name as "longer"), so
`similarity(A,B) = 1.0` while `similarity(B,A) = 0.0`. -/
theorem similarity_not_symmetric :
    calculate_wine_similarity asymA asymB = mkRat 1 1 ∧
    calculate_wine_similarity asymB asymA = mkRat 0 1 :=
  ⟨by decide, by decide⟩

theorem any_congr {α : Type} (l : List α) (f g : α → Bool)
    (h : ∀ x ∈ l, f x = g x) : l.any f = l.any g := by
  induction l with
  | nil => rfl
  | cons x r ih =>
    simp only [List.any_cons]
    rw [h x (List.mem_cons_self x r), ih (fun y hy => h y (List.mem_cons_of_mem x hy))]

theorem translitEntryHit_symm (n1 n2 : Str) (e : Str × List Str) :
    translitEntryHit n1 n2 e = translitEntryHit n2 n1 e := by
  unfold translitEntryHit
  dsimp only
  apply any_congr
  intro en hen
  generalize isSubstrL (normalize_wine_name e.1) n1 = a
  generalize isSubstrL en n2 = b
  generalize isSubstrL en n1 = c
  generalize isSubstrL (normalize_wine_name e.1) n2 = d
  revert a b c d
  decide

theorem romanization_symm (n1 n2 : Str)
    (h : contains_japanese n1 ≠ contains_japanese n2) :
    check_romanization_similarity n1 n2 = check_romanization_similarity n2 n1 := by
  unfold check_romanization_similarity
  dsimp only
  cases h1 : contains_japanese n1 with
  | false =>
    have h2 : contains_japanese n2 = true := by
      cases h2 : contains_japanese n2 with
      | false => exact absurd (h1.trans h2.symm) h
      | true => rfl
    rw [h2]
    simp
  | true =>
    have h2 : contains_japanese n2 = false := by
      cases h2 : contains_japanese n2 with
      | true => exact absurd (h1.trans h2.symm) h
      | false => rfl
    rw [h2]
    simp

theorem transliteration_symm (n1 n2 : Str) :
    check_transliteration_similarity n1 n2 = check_transliteration_similarity n2 n1 := by
  unfold check_transliteration_similarity
  dsimp only
  by_cases h0 : n1 = [] ∨ n2 = []
  · rw [if_pos h0, if_pos (Or.symm h0)]
  · rw [if_neg h0, if_neg (fun hh => h0 (Or.symm hh))]
    have hhit : transliterationPairs.any
        (translitEntryHit (normalize_wine_name n1) (normalize_wine_name n2)) =
        transliterationPairs.any
        (translitEntryHit (normalize_wine_name n2) (normalize_wine_name n1)) :=
      any_congr _ _ _ (fun e _ => translitEntryHit_symm _ _ e)
    have hpart : (wineTermPairs.any (fun p =>
        (isSubstrL p.1 n1 && isSubstrL p.2 (normalize_wine_name n2)) ||
        (isSubstrL p.1 n2 && isSubstrL p.2 (normalize_wine_name n1)))) =
        (wineTermPairs.any (fun p =>
        (isSubstrL p.1 n2 && isSubstrL p.2 (normalize_wine_name n1)) ||
        (isSubstrL p.1 n1 && isSubstrL p.2 (normalize_wine_name n2)))) := by
      apply any_congr
      intro p hp
      generalize (isSubstrL p.1 n1 && isSubstrL p.2 (normalize_wine_name n2)) = x
      generalize (isSubstrL p.1 n2 && isSubstrL p.2 (normalize_wine_name n1)) = y
      revert x y
      decide
    have hinner : (if contains_japanese n1 ≠ contains_japanese n2 then
        (if check_romanization_similarity n1 n2 > mkRat 7 10 then
          check_romanization_similarity n1 n2 else mkRat 0 1)
        else mkRat 0 1) =
        (if contains_japanese n2 ≠ contains_japanese n1 then
        (if check_romanization_similarity n2 n1 > mkRat 7 10 then
          check_romanization_similarity n2 n1 else mkRat 0 1)
        else mkRat 0 1) := by
      by_cases hg : contains_japanese n1 ≠ contains_japanese n2
      · rw [if_pos hg, if_pos (Ne.symm hg), romanization_symm n1 n2 hg]
      · rw [if_neg hg, if_neg (fun hh => hg (Ne.symm hh))]
    rw [hhit, hpart, hinner]

theorem substring_symm (n1 n2 : Str)
    (hlen : (normalize_wine_name n1).length ≠ (normalize_wine_name n2).length) :
    check_substring_similarity n1 n2 = check_substring_similarity n2 n1 := by
  unfold check_substring_similarity
  dsimp only
  by_cases h0 : n1 = [] ∨ n2 = []
  · rw [if_pos h0, if_pos (Or.symm h0)]
  · rw [if_neg h0, if_neg (fun hh => h0 (Or.symm hh))]
    rw [Finset.inter_comm
        ((splitWs (normalize_wine_name n2)).filter (fun w => decide (w.length > 2))).toFinset
        ((splitWs (normalize_wine_name n1)).filter (fun w => decide (w.length > 2))).toFinset,
      min_comm
        ((splitWs (normalize_wine_name n2)).filter (fun w => decide (w.length > 2))).toFinset.card
        ((splitWs (normalize_wine_name n1)).filter (fun w => decide (w.length > 2))).toFinset.card]
    have htail :
        (if (splitWs (if (normalize_wine_name n1).length < (normalize_wine_name n2).length
              then (normalize_wine_name n1, normalize_wine_name n2)
              else (normalize_wine_name n2, normalize_wine_name n1)).1).filter
                (fun w => !commonWordsCS.contains w && decide (w.length > 2)) ≠ [] ∧
            ((splitWs (if (normalize_wine_name n1).length < (normalize_wine_name n2).length
              then (normalize_wine_name n1, normalize_wine_name n2)
              else (normalize_wine_name n2, normalize_wine_name n1)).1).filter
                (fun w => !commonWordsCS.contains w && decide (w.length > 2))).all
              (fun w => isSubstrL w
                (if (normalize_wine_name n1).length < (normalize_wine_name n2).length
                 then (normalize_wine_name n1, normalize_wine_name n2)
                 else (normalize_wine_name n2, normalize_wine_name n1)).2)
         then mkRat 17 20 else mkRat 0 1)
        =
        (if (splitWs (if (normalize_wine_name n2).length < (normalize_wine_name n1).length
              then (normalize_wine_name n2, normalize_wine_name n1)
              else (normalize_wine_name n1, normalize_wine_name n2)).1).filter
                (fun w => !commonWordsCS.contains w && decide (w.length > 2)) ≠ [] ∧
            ((splitWs (if (normalize_wine_name n2).length < (normalize_wine_name n1).length
              then (normalize_wine_name n2, normalize_wine_name n1)
              else (normalize_wine_name n1, normalize_wine_name n2)).1).filter
                (fun w => !commonWordsCS.contains w && decide (w.length > 2))).all
              (fun w => isSubstrL w
                (if (normalize_wine_name n2).length < (normalize_wine_name n1).length
                 then (normalize_wine_name n2, normalize_wine_name n1)
                 else (normalize_wine_name n1, normalize_wine_name n2)).2)
         then mkRat 17 20 else mkRat 0 1) := by
      rcases Nat.lt_or_ge (normalize_wine_name n1).length (normalize_wine_name n2).length with hlt | hge
      · rw [if_pos hlt, if_neg (Nat.lt_asymm hlt)]
      · have hgt : (normalize_wine_name n2).length < (normalize_wine_name n1).length :=
          Nat.lt_of_le_of_ne hge (fun hh => hlen hh.symm)
        rw [if_neg (Nat.lt_asymm hgt), if_pos hgt]
    rw [htail]
    exact if_congr or_comm rfl rfl

theorem nameSegment_symm (a b : Finset Str) :
    (if a ≠ ∅ ∧ b ≠ ∅ then
      (SigTag.nameWords,
        (if a ∪ b ≠ ∅ then mkRat (a ∩ b).card (a ∪ b).card else mkRat 0 1),
        mkRat 2 5) ::
      (if mkRat (a ∩ b).card 1 ≥ qmul (mkRat (min a.card b.card) 1) (mkRat 7 10)
       then [(SigTag.nameBoost, mkRat 1 1, mkRat 1 5)] else [])
     else []) =
    (if b ≠ ∅ ∧ a ≠ ∅ then
      (SigTag.nameWords,
        (if b ∪ a ≠ ∅ then mkRat (b ∩ a).card (b ∪ a).card else mkRat 0 1),
        mkRat 2 5) ::
      (if mkRat (b ∩ a).card 1 ≥ qmul (mkRat (min b.card a.card) 1) (mkRat 7 10)
       then [(SigTag.nameBoost, mkRat 1 1, mkRat 1 5)] else [])
     else []) := by
  rw [Finset.union_comm b a, Finset.inter_comm b a, min_comm (b.card : ℤ) (a.card : ℤ)]
  exact if_congr and_comm rfl rfl

theorem producerSegment_symm (a b : Finset Str) :
    (if a ≠ ∅ ∧ b ≠ ∅ then
      [(SigTag.producer,
        (if a ∪ b ≠ ∅ then mkRat (a ∩ b).card (a ∪ b).card else mkRat 0 1),
        mkRat 1 5)]
     else []) =
    (if b ≠ ∅ ∧ a ≠ ∅ then
      [(SigTag.producer,
        (if b ∪ a ≠ ∅ then mkRat (b ∩ a).card (b ∪ a).card else mkRat 0 1),
        mkRat 1 5)]
     else []) := by
  rw [Finset.union_comm b a, Finset.inter_comm b a]
  exact if_congr and_comm rfl rfl

theorem interSegment_symm (a b : Finset Str) (t : SigTag) (w : ℚ) :
    (if a ≠ ∅ ∧ b ≠ ∅ ∧ a ∩ b ≠ ∅ then [(t, mkRat 1 1, w)] else []) =
    (if b ≠ ∅ ∧ a ≠ ∅ ∧ b ∩ a ≠ ∅ then [(t, mkRat 1 1, w)] else []) := by
  rw [Finset.inter_comm b a]
  exact if_congr ⟨fun h => ⟨h.2.1, h.1, h.2.2⟩, fun h => ⟨h.2.1, h.1, h.2.2⟩⟩ rfl rfl

theorem grapeSegment_symm (g1 g2 : Option Str) :
    (match g1, g2 with
     | some a, some b =>
       if a ≠ [] ∧ b ≠ [] ∧ a = b then [(SigTag.grape, mkRat 1 1, mkRat 1 20)] else []
     | _, _ => []) =
    (match g2, g1 with
     | some b, some a =>
       if b ≠ [] ∧ a ≠ [] ∧ b = a then [(SigTag.grape, mkRat 1 1, mkRat 1 20)] else []
     | _, _ => []) := by
  cases g1 with
  | none => cases g2 <;> rfl
  | some a =>
    cases g2 with
    | none => rfl
    | some b =>
      exact if_congr ⟨fun h => ⟨h.2.1, h.1, h.2.2.symm⟩,
                      fun h => ⟨h.2.1, h.1, h.2.2.symm⟩⟩ rfl rfl

theorem substrSegment_symm (m1 m2 : Str) (hlen : m1.length ≠ m2.length) :
    (if m1 ≠ [] ∧ m2 ≠ [] ∧ m1.length > 5 ∧ m2.length > 5 then
      (if (if m1.length > m2.length then (m1, m2) else (m2, m1)).2.length > 0 then
        (if mkRat ((splitWs (if m1.length > m2.length then (m1, m2) else (m2, m1)).2).toFinset ∩
              (splitWs (if m1.length > m2.length then (m1, m2) else (m2, m1)).1).toFinset).card
              (splitWs (if m1.length > m2.length then (m1, m2) else (m2, m1)).2).toFinset.card >
            mkRat 1 2 then
          [(SigTag.substring,
            mkRat ((splitWs (if m1.length > m2.length then (m1, m2) else (m2, m1)).2).toFinset ∩
              (splitWs (if m1.length > m2.length then (m1, m2) else (m2, m1)).1).toFinset).card
              (splitWs (if m1.length > m2.length then (m1, m2) else (m2, m1)).2).toFinset.card,
            mkRat 1 10)]
         else [])
       else [])
     else []) =
    (if m2 ≠ [] ∧ m1 ≠ [] ∧ m2.length > 5 ∧ m1.length > 5 then
      (if (if m2.length > m1.length then (m2, m1) else (m1, m2)).2.length > 0 then
        (if mkRat ((splitWs (if m2.length > m1.length then (m2, m1) else (m1, m2)).2).toFinset ∩
              (splitWs (if m2.length > m1.length then (m2, m1) else (m1, m2)).1).toFinset).card
              (splitWs (if m2.length > m1.length then (m2, m1) else (m1, m2)).2).toFinset.card >
            mkRat 1 2 then
          [(SigTag.substring,
            mkRat ((splitWs (if m2.length > m1.length then (m2, m1) else (m1, m2)).2).toFinset ∩
              (splitWs (if m2.length > m1.length then (m2, m1) else (m1, m2)).1).toFinset).card
              (splitWs (if m2.length > m1.length then (m2, m1) else (m1, m2)).2).toFinset.card,
            mkRat 1 10)]
         else [])
       else [])
     else []) := by
  have hp : (if m1.length > m2.length then (m1, m2) else (m2, m1)) =
      (if m2.length > m1.length then (m2, m1) else (m1, m2)) := by
    rcases Nat.lt_or_ge m2.length m1.length with hlt | hge
    · rw [if_pos hlt, if_neg (Nat.lt_asymm hlt)]
    · have hgt : m1.length < m2.length := Nat.lt_of_le_of_ne hge hlen
      rw [if_neg (Nat.lt_asymm hgt), if_pos hgt]
  rw [hp]
  exact if_congr ⟨fun h => ⟨h.2.1, h.1, h.2.2.2, h.2.2.1⟩,
                  fun h => ⟨h.2.1, h.1, h.2.2.2, h.2.2.1⟩⟩ rfl rfl

theorem identitySignals_symm (i1 i2 : WineIdentity)
    (hlen : i1.normalized_name.length ≠ i2.normalized_name.length) :
    identitySignals i1 i2 = identitySignals i2 i1 := by
  simp only [identitySignals]
  rw [nameSegment_symm i1.name_words i2.name_words,
      producerSegment_symm i1.producer_words i2.producer_words,
      interSegment_symm i1.wine_types i2.wine_types SigTag.wineTypes (mkRat 3 20),
      interSegment_symm i1.regions i2.regions SigTag.regions (mkRat 1 10),
      grapeSegment_symm i1.grape_variety i2.grape_variety,
      substrSegment_symm i1.normalized_name i2.normalized_name hlen]

theorem identity_similarity_symm (i1 i2 : WineIdentity)
    (hlen : i1.normalized_name.length ≠ i2.normalized_name.length) :
    calculate_identity_similarity i1 i2 = calculate_identity_similarity i2 i1 := by
  unfold calculate_identity_similarity
  rw [identitySignals_symm i1 i2 hlen]

theorem sharedWordBoost_symm (n1 n2 : Str) (s : ℚ) :
    sharedWordBoost n1 n2 s = sharedWordBoost n2 n1 s := by
  simp only [sharedWordBoost]
  rw [Finset.inter_comm
      ((splitWs n2).filter (fun w => decide (w.length > 3))).toFinset
      ((splitWs n1).filter (fun w => decide (w.length > 3))).toFinset,
    min_comm
      ((splitWs n2).filter (fun w => decide (w.length > 3))).toFinset.card
      ((splitWs n1).filter (fun w => decide (w.length > 3))).toFinset.card]
  have hk : (keyWineTerms.any (fun t => isSubstrL t n2 || isSubstrL t n1)) =
      (keyWineTerms.any (fun t => isSubstrL t n1 || isSubstrL t n2)) :=
    any_congr _ _ _ (fun t _ => Bool.or_comm _ _)
  rw [hk]
  exact if_congr and_comm (if_congr and_comm rfl rfl) rfl

theorem producerMatchBoost_symm (w1 w2 : WineRecord) (s : ℚ) :
    producerMatchBoost w1 w2 s = producerMatchBoost w2 w1 s := by
  simp only [producerMatchBoost]
  rw [Finset.inter_comm
      ((splitWs (normalize_wine_name (optVal w2.producer))).filter
        (fun w => decide (w.length > 2))).toFinset
      ((splitWs (normalize_wine_name (optVal w1.producer))).filter
        (fun w => decide (w.length > 2))).toFinset]
  exact if_congr and_comm (if_congr and_comm rfl rfl) rfl

/-- C1 (amended): `calculate_wine_similarity` is symmetric whenever the two
normalized names differ in length.  The only asymmetric step in the source
is the shorter/longer tie-break on equal-length normalized names inside the
word-containment checks (the substring signal of
`calculate_identity_similarity` and `check_substring_similarity`, which put
the *second* name in the "longer" role on ties, as `similarity_not_symmetric`
exhibits); every other signal and escalation is order-independent. -/
theorem wine_similarity_symm_of_length_ne (wine1 wine2 : WineRecord)
    (hlen : (normalize_wine_name wine1.name).length ≠
      (normalize_wine_name wine2.name).length) :
    calculate_wine_similarity wine1 wine2 = calculate_wine_similarity wine2 wine1 := by
  have hlen' : (extract_wine_identity wine1).normalized_name.length ≠
      (extract_wine_identity wine2).normalized_name.length := hlen
  simp only [calculate_wine_similarity]
  rw [identity_similarity_symm _ _ hlen',
    transliteration_symm wine1.name wine2.name,
    substring_symm wine1.name wine2.name hlen,
    sharedWordBoost_symm, producerMatchBoost_symm]

/-- Witness for `wine_similarity_symm_of_length_ne` at the records named
"シャルドネ" (normalized length 5) and "chardonnay castle" (length 17). -/
theorem wine_similarity_symm_of_length_ne_witness :
    (normalize_wine_name greedyA.name).length ≠
      (normalize_wine_name greedyB.name).length ∧
    calculate_wine_similarity greedyA greedyB = calculate_wine_similarity greedyB greedyA :=
  ⟨by decide, wine_similarity_symm_of_length_ne greedyA greedyB (by decide)⟩
